import Mathlib

/-
  Verification development for the fusion-blossom MWPM decoder core.

  Shallow embedding of `src/dual_module.rs` and of the `is_active` discipline of
  `src/primal_module_parallel.rs`.  Rust `ArcRwLock<DualNode>` pointers are
  modelled as allocation identifiers (`Nat`) into a global `Store`; pointer
  equality (`PartialEq` on `DualNodePtr`, which is `Arc` identity) is equality
  of allocation ids.  Weak references (`DualNodeWeak`) are the same ids;
  `upgrade_force` is a store lookup.  Fallible operations (Rust `assert!` /
  `panic!`) return `Except String`; backend (`DualModuleImpl`) calls do not
  touch the interface state and are omitted.
-/

namespace FusionBlossom

/-- `Weight` from util.rs (an `i64`); modelled as `Int` (the algorithm only ever
    takes `min` of, adds and subtracts in-range values). -/
abbrev Weight := Int

/-- `Weight::MAX` (`i64::MAX`), the sentinel marking an empty conflict group. -/
def weightMAX : Weight := 9223372036854775807

/-- Source: `enum DualNodeGrowState`.  Three possible states: Grow (+1), Stay (0), Shrink (-1). -/
inductive DualNodeGrowState
  | Grow
  | Stay
  | Shrink
deriving DecidableEq, Repr

/-- Source: `enum DualNodeClass`.  The weak references in `nodes_circle` and
    `touching_children` are modelled as allocation ids. -/
inductive DualNodeClass
  | Blossom (nodes_circle : List Nat) (touching_children : List (Nat × Nat))
  | SyndromeVertex (syndrome_index : Nat)
deriving DecidableEq, Repr

/-- Source: `DualNodeClass::is_blossom`. -/
def DualNodeClass.is_blossom : DualNodeClass → Bool
  | .Blossom _ _ => true
  | .SyndromeVertex _ => false

/-- Source: `struct DualNode`. -/
structure DualNode where
  index : Nat
  node_class : DualNodeClass
  grow_state : DualNodeGrowState
  parent_blossom : Option Nat
  dual_variable_cache : Weight × Weight
deriving DecidableEq, Repr

/-- The heap of `ArcRwLock<DualNode>` allocations: allocation id to node content,
    plus the next fresh id.  `Arc` identity, which `PartialEq for DualNodePtr`
    compares, is the id. -/
structure Store where
  data : Nat → Option DualNode
  fresh : Nat

def Store.empty : Store := ⟨fun _ => none, 0⟩

/-- Build a store whose allocation ids are positions of the list. -/
def Store.ofList (l : List DualNode) : Store := ⟨fun n => l[n]?, l.length⟩

/-- Models `DualNodePtr::new`: allocate a node, returning the new id. -/
def Store.alloc (s : Store) (node : DualNode) : Store × Nat :=
  (⟨fun n => if n = s.fresh then some node else s.data n, s.fresh + 1⟩, s.fresh)

/-- Models a write through an existing pointer. -/
def Store.setNode (s : Store) (id : Nat) (node : DualNode) : Store :=
  ⟨fun n => if n = id then some node else s.data n, s.fresh⟩

/-- Source: `DualNode::get_dual_variable`.  The source reads
    `interface.dual_variable_global_progress`; it is passed here explicitly. -/
def DualNode.get_dual_variable (node : DualNode) (global_progress : Weight) : Weight :=
  match node.grow_state with
  | .Grow => node.dual_variable_cache.1 + (global_progress - node.dual_variable_cache.2)
  | .Stay => node.dual_variable_cache.1
  | .Shrink => node.dual_variable_cache.1 - (global_progress - node.dual_variable_cache.2)

/-- Source: `DualNodePtr::get_representative_vertex`: descend the first child of
    each blossom until a syndrome vertex is found.  The descent through the
    pointer graph is bounded by fuel; in the source every descent terminates,
    so `none` is a model artifact (or a panic of `nodes_circle[0]`). -/
def get_representative_vertex (s : Store) : Nat → Nat → Option Nat
  | 0, _ => none
  | fuel + 1, id =>
    match s.data id with
    | none => none
    | some node =>
      match node.node_class with
      | .SyndromeVertex v => some v
      | .Blossom circ _ =>
        match circ.head? with
        | none => none
        | some first => get_representative_vertex s fuel first

/-- Source: `impl Ord for DualNodePtr` — reads both nodes and compares `index`.
    Dangling pointers (no allocation) cannot occur in the source; `.eq` there is
    a model artifact. -/
def cmpDualNodePtr (s : Store) (a b : Nat) : Ordering :=
  match s.data a, s.data b with
  | some node1, some node2 => compare node1.index node2.index
  | _, _ => Ordering.eq

/-- Source: `enum MaxUpdateLength`.  `DualNodePtr` payloads are allocation ids. -/
inductive MaxUpdateLength
  | NonZeroGrow (w : Weight)
  | Conflicting (pair1 : Nat × Nat) (pair2 : Nat × Nat)
  | TouchingVirtual (pair : Nat × Nat) (virt : Nat × Bool)
  | BlossomNeedExpand (node : Nat)
  | VertexShrinkStop (pair : Nat × Option (Nat × Nat))
deriving DecidableEq, Repr

/-- Source: `MaxUpdateLength::get_vertex_shrink_stop`. -/
def MaxUpdateLength.get_vertex_shrink_stop : MaxUpdateLength → Option Nat
  | .VertexShrinkStop (a, _) => some a
  | _ => none

/-- Spec-side rank of the conflict tags, highest priority last (NonZeroGrow,
    which is not orderable, gets rank 0). -/
def MaxUpdateLength.tagRank : MaxUpdateLength → Nat
  | .NonZeroGrow _ => 0
  | .VertexShrinkStop _ => 1
  | .BlossomNeedExpand _ => 2
  | .TouchingVirtual _ _ => 3
  | .Conflicting _ _ => 4

/-- Source: `impl Ord for MaxUpdateLength`.  `NonZeroGrow` is debug-asserted out
    in the source and never enters a heap; the final catch-all covers those
    unreachable combinations. -/
def MaxUpdateLength.cmp (s : Store) (a b : MaxUpdateLength) : Ordering :=
  if a = b then Ordering.eq
  else
    match a, b with
    | .VertexShrinkStop (x, _), .VertexShrinkStop (y, _) => cmpDualNodePtr s x y
    | .VertexShrinkStop _, _ => Ordering.lt
    | _, .VertexShrinkStop _ => Ordering.gt
    | .BlossomNeedExpand x, .BlossomNeedExpand y => cmpDualNodePtr s x y
    | .BlossomNeedExpand _, _ => Ordering.lt
    | _, .BlossomNeedExpand _ => Ordering.gt
    | .TouchingVirtual (x, _) (v1, _), .TouchingVirtual (y, _) (v2, _) =>
        ((cmpDualNodePtr s x y).swap).then ((compare v1 v2).swap)
    | .TouchingVirtual _ _, _ => Ordering.lt
    | _, .TouchingVirtual _ _ => Ordering.gt
    | .Conflicting (x1, _) (x2, _), .Conflicting (y1, _) (y2, _) =>
        ((cmpDualNodePtr s x1 y1).swap).then ((cmpDualNodePtr s x2 y2).swap)
    | _, _ => Ordering.eq

/-- `std::collections::BinaryHeap<MaxUpdateLength>`, modelled as the list of its
    elements; `peek`/`pop` select a maximal element under `MaxUpdateLength.cmp`. -/
abbrev ConflictHeap := List MaxUpdateLength

def heapPush (heap : ConflictHeap) (m : MaxUpdateLength) : ConflictHeap := m :: heap

def heapPeek (s : Store) : ConflictHeap → Option MaxUpdateLength
  | [] => none
  | m :: rest =>
    match heapPeek s rest with
    | none => some m
    | some m' => if MaxUpdateLength.cmp s m m' = Ordering.lt then some m' else some m

def heapPop (s : Store) : ConflictHeap → Option (MaxUpdateLength × ConflictHeap)
  | [] => none
  | m :: rest =>
    match heapPop s rest with
    | none => some (m, rest)
    | some (m', rest') =>
      if MaxUpdateLength.cmp s m m' = Ordering.lt then some (m', m :: rest')
      else some (m, rest)

/-- `BTreeMap<VertexIndex, MaxUpdateLength>`, modelled as an association list
    sorted by key (the BTreeMap iterates keys in increasing order). -/
abbrev PendingStops := List (Nat × MaxUpdateLength)

def pendingGet : PendingStops → Nat → Option MaxUpdateLength
  | [], _ => none
  | (k, m) :: rest, v => if v = k then some m else pendingGet rest v

def pendingInsert : PendingStops → Nat → MaxUpdateLength → PendingStops
  | [], v, m => [(v, m)]
  | (k, m') :: rest, v, m =>
    if v < k then (v, m) :: (k, m') :: rest
    else if v = k then (v, m) :: rest
    else (k, m') :: pendingInsert rest v m

def pendingRemove : PendingStops → Nat → PendingStops
  | [], _ => []
  | (k, m') :: rest, v => if v = k then rest else (k, m') :: pendingRemove rest v

/-- Source: `enum GroupMaxUpdateLength`. -/
inductive GroupMaxUpdateLength
  | NonZeroGrow (w : Weight)
  | Conflicts (heap : ConflictHeap) (pending_stops : PendingStops)
deriving DecidableEq, Repr

/-- Source: `GroupMaxUpdateLength::new`. -/
def GroupMaxUpdateLength.new : GroupMaxUpdateLength := .NonZeroGrow weightMAX

/-- Source: `GroupMaxUpdateLength::add_pending_stop`.  Needs the store (and
    fuel) to compute the representative vertex of a shrink-stop subject; `none`
    is the model artifact of running out of fuel, never hit in the source. -/
def add_pending_stop (s : Store) (fuel : Nat) (heap : ConflictHeap)
    (pending_stops : PendingStops) (max_update_length : MaxUpdateLength) :
    Option (ConflictHeap × PendingStops) :=
  match max_update_length.get_vertex_shrink_stop with
  | some dual_node_id =>
    match get_representative_vertex s fuel dual_node_id with
    | none => none
    | some vertex_index =>
      match pendingGet pending_stops vertex_index with
      | some existing_length =>
        match max_update_length with
        | .VertexShrinkStop (_, some weak_pair) =>
          match existing_length with
          | .VertexShrinkStop (_, some existing_weak_pair) =>
            if weak_pair.1 ≠ existing_weak_pair.1 then
              some (heapPush heap (.Conflicting weak_pair existing_weak_pair),
                    pendingRemove pending_stops vertex_index)
            else some (heap, pending_stops)
          | _ => some (heap, pendingInsert pending_stops vertex_index max_update_length)
        | _ => some (heap, pending_stops)
      | none => some (heap, pendingInsert pending_stops vertex_index max_update_length)
  | none => some (heapPush heap max_update_length, pending_stops)

/-- Source: `GroupMaxUpdateLength::add`. -/
def GroupMaxUpdateLength.add (s : Store) (fuel : Nat) (g : GroupMaxUpdateLength)
    (max_update_length : MaxUpdateLength) : Option GroupMaxUpdateLength :=
  match g with
  | .NonZeroGrow current_length =>
    match max_update_length with
    | .NonZeroGrow length => some (.NonZeroGrow (min current_length length))
    | _ =>
      match max_update_length.get_vertex_shrink_stop with
      | some dual_node_id =>
        match get_representative_vertex s fuel dual_node_id with
        | none => none
        | some vertex_index =>
          some (.Conflicts [] (pendingInsert [] vertex_index max_update_length))
      | none => some (.Conflicts (heapPush [] max_update_length) [])
  | .Conflicts heap pending_stops =>
    match max_update_length with
    | .NonZeroGrow _ => some (.Conflicts heap pending_stops)
    | _ => (add_pending_stop s fuel heap pending_stops max_update_length).map
        (fun hp => .Conflicts hp.1 hp.2)

/-- Source: `GroupMaxUpdateLength::pop`.  On the `NonZeroGrow` form the source
    panics; here that is an `Except.error`. -/
def GroupMaxUpdateLength.pop (s : Store) :
    GroupMaxUpdateLength → Except String (Option MaxUpdateLength × GroupMaxUpdateLength)
  | .NonZeroGrow _ =>
      .error "please call GroupMaxUpdateLength::get_none_zero_growth to check if this group is none_zero_growth"
  | .Conflicts heap pending_stops =>
    match heapPop s heap with
    | some (m, heap') => .ok (some m, .Conflicts heap' pending_stops)
    | none =>
      match pending_stops.head? with
      | some (key, m) => .ok (some m, .Conflicts heap (pendingRemove pending_stops key))
      | none => .ok (none, .Conflicts heap pending_stops)

/-- Source: `GroupMaxUpdateLength::peek`.  On the `NonZeroGrow` form the source
    panics; here that is an `Except.error`. -/
def GroupMaxUpdateLength.peek (s : Store) :
    GroupMaxUpdateLength → Except String (Option MaxUpdateLength)
  | .NonZeroGrow _ =>
      .error "please call GroupMaxUpdateLength::get_none_zero_growth to check if this group is none_zero_growth"
  | .Conflicts heap pending_stops =>
    match heapPeek s heap with
    | some m => .ok (some m)
    | none =>
      if pending_stops.isEmpty then .ok none
      else .ok ((pending_stops.head?).map Prod.snd)

/-- Source: `struct DualModuleInterface` (the `debug_print_actions` flag only
    gates `eprintln` logging and is omitted). -/
structure DualModuleInterface where
  nodes : List (Option Nat)
  nodes_length : Nat
  sum_grow_speed : Weight
  sum_dual_variables : Weight
  dual_variable_global_progress : Weight
deriving DecidableEq, Repr

/-- Source: `DualModuleInterface::new_empty`. -/
def DualModuleInterface.new_empty : DualModuleInterface :=
  { nodes := []
    nodes_length := 0
    sum_grow_speed := 0
    sum_dual_variables := 0
    dual_variable_global_progress := 0 }

/-- Source: `DualModuleInterface::clear`. -/
def DualModuleInterface.clear (self : DualModuleInterface) : DualModuleInterface :=
  { self with nodes_length := 0 }

/-- Source: `DualModuleInterface::check_ptr_belonging`. -/
def check_ptr_belonging (s : Store) (self : DualModuleInterface) (id : Nat) : Bool :=
  match s.data id with
  | none => false
  | some node =>
    if node.index ≥ self.nodes_length then false
    else
      match self.nodes[node.index]? with
      | some (some tracked_id) => decide (tracked_id = id)
      | _ => false

/-- Source: `DualModuleInterface::create_syndrome_node` (backend call omitted). -/
def create_syndrome_node (s : Store) (self : DualModuleInterface) (vertex_idx : Nat) :
    Store × DualModuleInterface × Nat :=
  let node_idx := self.nodes_length
  let node : DualNode :=
    { index := node_idx
      node_class := .SyndromeVertex vertex_idx
      grow_state := .Grow
      parent_blossom := none
      dual_variable_cache := (0, self.dual_variable_global_progress) }
  let allocated := s.alloc node
  let nodes1 := if self.nodes.length < node_idx + 1 then self.nodes ++ [none] else self.nodes
  (allocated.1,
   { self with
     sum_grow_speed := self.sum_grow_speed + 1
     nodes_length := node_idx + 1
     nodes := nodes1.set node_idx (some allocated.2) },
   allocated.2)

/-- Source: `DualModuleInterface::set_grow_state`.  The inner
    `DualNodePtr::set_grow_state` asserts that the node has no parent blossom;
    a failing assert is an error (the source checks it after updating the sums,
    but a panicking run produces no state, so checking first is equivalent for
    successful runs). -/
def set_grow_state (s : Store) (self : DualModuleInterface) (id : Nat)
    (grow_state : DualNodeGrowState) : Except String (Store × DualModuleInterface) :=
  match s.data id with
  | none => .error "dangling dual node pointer"
  | some node =>
    if node.parent_blossom.isSome then
      .error "setting node grow state inside a blossom forbidden"
    else
      let speed1 := self.sum_grow_speed +
        (match node.grow_state with | .Grow => -1 | .Shrink => 1 | .Stay => 0)
      let speed2 := speed1 +
        (match grow_state with | .Grow => 1 | .Shrink => -1 | .Stay => 0)
      let current_dual_variable := node.get_dual_variable self.dual_variable_global_progress
      let node' := { node with
        dual_variable_cache := (current_dual_variable, self.dual_variable_global_progress)
        grow_state := grow_state }
      .ok (s.setNode id node', { self with sum_grow_speed := speed2 })

/-- The member loop of `DualModuleInterface::create_blossom`: check belonging
    (a debug_assert in the source), no parent, alternating Grow/Shrink state;
    then `set_grow_state(member, Stay)` and set the parent pointer. -/
def create_blossom_loop (blossom_id : Nat) (circle : List Nat) (i : Nat)
    (s : Store) (self : DualModuleInterface) : Except String (Store × DualModuleInterface) :=
  match circle with
  | [] => .ok (s, self)
  | id :: rest =>
    if !check_ptr_belonging s self id then
      .error "this ptr does not belong to this interface"
    else
      match s.data id with
      | none => .error "dangling dual node pointer"
      | some node =>
        if node.parent_blossom.isSome then
          .error "cannot create blossom on a node that already belongs to a blossom"
        else if node.grow_state ≠ (if i % 2 = 0 then DualNodeGrowState.Grow else DualNodeGrowState.Shrink) then
          .error "the nodes circle MUST start with a growing node and end with a shrinking node"
        else
          match set_grow_state s self id .Stay with
          | .error e => .error e
          | .ok ss =>
            match ss.1.data id with
            | none => .error "dangling dual node pointer"
            | some node1 =>
              create_blossom_loop blossom_id rest (i + 1)
                (ss.1.setNode id { node1 with parent_blossom := some blossom_id }) ss.2

/-- Source: `DualModuleInterface::create_blossom` (backend calls omitted). -/
def create_blossom (s : Store) (self : DualModuleInterface) (nodes_circle : List Nat)
    (touching_children : List (Nat × Nat)) :
    Except String (Store × DualModuleInterface × Nat) :=
  let touching := if touching_children.length = 0 then
      nodes_circle.map (fun id => (id, id))
    else touching_children
  if touching.length ≠ nodes_circle.length then .error "circle length mismatch"
  else
    let node_index := self.nodes_length
    let blossom : DualNode :=
      { index := node_index
        node_class := .Blossom [] []
        grow_state := .Grow
        parent_blossom := none
        dual_variable_cache := (0, self.dual_variable_global_progress) }
    let allocated := s.alloc blossom
    match create_blossom_loop allocated.2 nodes_circle 0 allocated.1 self with
    | .error e => .error e
    | .ok ss =>
      match ss.1.data allocated.2 with
      | none => .error "dangling dual node pointer"
      | some blossom_node =>
        let s2 := ss.1.setNode allocated.2
          { blossom_node with node_class := .Blossom nodes_circle touching }
        let nodes1 := if ss.2.nodes.length < node_index + 1 then ss.2.nodes ++ [none] else ss.2.nodes
        .ok (s2,
          { ss.2 with
            nodes_length := node_index + 1
            nodes := nodes1.set node_index (some allocated.2)
            sum_grow_speed := ss.2.sum_grow_speed + 1 },
          allocated.2)

/-- The member loop of `DualModuleInterface::expand_blossom`: assert the parent
    pointer and Stay state, clear the parent, then `set_grow_state(member, Grow)`. -/
def expand_blossom_loop (blossom_id : Nat) (circle : List Nat)
    (s : Store) (self : DualModuleInterface) : Except String (Store × DualModuleInterface) :=
  match circle with
  | [] => .ok (s, self)
  | id :: rest =>
    match s.data id with
    | none => .error "dangling dual node pointer"
    | some node =>
      if node.parent_blossom ≠ some blossom_id then
        .error "internal error: parent blossom must be this blossom"
      else if node.grow_state ≠ DualNodeGrowState.Stay then
        .error "internal error: children node must be DualNodeGrowState::Stay"
      else
        let s1 := s.setNode id { node with parent_blossom := none }
        match set_grow_state s1 self id .Grow with
        | .error e => .error e
        | .ok ss => expand_blossom_loop blossom_id rest ss.1 ss.2

/-- Source: `DualModuleInterface::expand_blossom` (backend `remove_blossom` omitted). -/
def expand_blossom (s : Store) (self : DualModuleInterface) (blossom_id : Nat) :
    Except String (Store × DualModuleInterface) :=
  match s.data blossom_id with
  | none => .error "dangling dual node pointer"
  | some node =>
    let self1 := { self with sum_grow_speed := self.sum_grow_speed +
      (match node.grow_state with | .Grow => -1 | .Shrink => 1 | .Stay => 0) }
    let node_idx := node.index
    match self1.nodes[node_idx]? with
    | some (some tracked_id) =>
      if tracked_id ≠ blossom_id then
        .error "the blossom does not belong to this DualModuleInterface"
      else
        let self2 := { self1 with nodes := self1.nodes.set node_idx none }
        match node.node_class with
        | .Blossom circ _ => expand_blossom_loop blossom_id circ s self2
        | .SyndromeVertex _ => .error "unreachable"
    | _ => .error "the blossom should not be expanded before"

/-- Source: `DualModuleInterface::grow` (backend `grow` omitted). -/
def grow (self : DualModuleInterface) (length : Weight) : DualModuleInterface :=
  { self with
    sum_dual_variables := self.sum_dual_variables + length * self.sum_grow_speed
    dual_variable_global_progress := self.dual_variable_global_progress + length }

/-- The inner loop of `DualModuleInterface::fuse` for one `other` interface,
    iterating slots `0..other.nodes_length` (as the index list `js`). -/
def fuse_loop (other : DualModuleInterface) (bias : Nat) :
    List Nat → Store → DualModuleInterface → Except String (Store × DualModuleInterface)
  | [], s, self => .ok (s, self)
  | j :: rest, s, self =>
    match other.nodes[j]? with
    | none => .error "index out of bounds"
    | some slot =>
      let step : Except String Store :=
        match slot with
        | none => .ok s
        | some id =>
          match s.data id with
          | none => .error "dangling dual node pointer"
          | some node => .ok (s.setNode id
              { node with
                index := node.index + bias
                dual_variable_cache :=
                  (node.get_dual_variable other.dual_variable_global_progress,
                   self.dual_variable_global_progress) })
      match step with
      | .error e => .error e
      | .ok s1 =>
        let self1 := { self with nodes_length := self.nodes_length + 1 }
        let nodes1 := if self1.nodes.length ≤ self1.nodes_length then self1.nodes ++ [none]
          else self1.nodes
        fuse_loop other bias rest s1 { self1 with nodes := nodes1.set (bias + j) slot }

/-- One pass of `DualModuleInterface::fuse` over a single `other` interface. -/
def fuse_single (s : Store) (self : DualModuleInterface) (other : DualModuleInterface) :
    Except String (Store × DualModuleInterface) :=
  let bias := self.nodes_length
  match fuse_loop other bias (List.range other.nodes_length) s self with
  | .error e => .error e
  | .ok ss => .ok (ss.1,
      { ss.2 with
        sum_dual_variables := ss.2.sum_dual_variables + other.sum_dual_variables
        sum_grow_speed := ss.2.sum_grow_speed + other.sum_grow_speed })

/-- Source: `DualModuleInterface::fuse` — append `left` then `right` into self. -/
def fuse (s : Store) (self left right : DualModuleInterface) :
    Except String (Store × DualModuleInterface) :=
  match fuse_single s self left with
  | .error e => .error e
  | .ok ss => fuse_single ss.1 ss.2 right

/-- The per-slot summand of the dual-variable total that `sanity_check` computes
    (`sum_individual_dual_variable`). -/
def slotDual (s : Store) (global_progress : Weight) : Option Nat → Weight
  | none => 0
  | some id =>
    match s.data id with
    | none => 0
    | some node => node.get_dual_variable global_progress

/-- `sanity_check`'s sum of `get_dual_variable` over the node array. -/
def sumDual (s : Store) (global_progress : Weight) (nodes : List (Option Nat)) : Weight :=
  (nodes.map (slotDual s global_progress)).sum

/-- The unit growth (+1 / 0 / −1) of a grow state. -/
def growSpeed : DualNodeGrowState → Weight
  | .Grow => 1
  | .Stay => 0
  | .Shrink => -1

/-- The per-slot summand of the total grow speed. -/
def slotSpeed (s : Store) : Option Nat → Weight
  | none => 0
  | some id =>
    match s.data id with
    | none => 0
    | some node => growSpeed node.grow_state

/-- Sum of unit growths over the node array. -/
def sumSpeed (s : Store) (nodes : List (Option Nat)) : Weight :=
  (nodes.map (slotSpeed s)).sum

/-- Number of circle members currently in the Shrink state. -/
def shrinkCount (s : Store) (circle : List Nat) : Nat :=
  circle.countP (fun id =>
    match s.data id with
    | some node => decide (node.grow_state = DualNodeGrowState.Shrink)
    | none => false)

/-- Sum of the grow speeds of the circle members themselves. -/
def circleSpeedSum (s : Store) (circle : List Nat) : Weight :=
  (circle.map (fun id =>
    match s.data id with
    | some node => growSpeed node.grow_state
    | none => 0)).sum

/-- `id` is tracked by the interface: some slot of the node array holds it. -/
def trackedIn (self : DualModuleInterface) (id : Nat) : Prop :=
  ∃ i : Nat, self.nodes[i]? = some (some id)

/-- The preconditions `create_blossom` checks on the circle members starting at
    position `i`: each member belongs to the interface, has no parent blossom,
    and alternates Grow/Shrink by position parity. -/
def circlePrecond (s : Store) (self : DualModuleInterface) : Nat → List Nat → Prop
  | _, [] => True
  | i, id :: rest =>
    (∃ node, s.data id = some node ∧ check_ptr_belonging s self id = true ∧
      node.parent_blossom = none ∧
      node.grow_state = (if i % 2 = 0 then DualNodeGrowState.Grow else DualNodeGrowState.Shrink)) ∧
    circlePrecond s self (i + 1) rest

/-- Every tracked node records its own slot as `index` (part of `sanity_check`). -/
def indexedNodes (s : Store) (self : DualModuleInterface) : Prop :=
  ∀ (j : Nat) (id : Nat), self.nodes[j]? = some (some id) →
    ∃ node, s.data id = some node ∧ node.index = j

/-- The structural invariant of a `DualModuleInterface` over the store, i.e. the
    facts `sanity_check` verifies (restricted to what the dual-variable total
    needs): the node array length matches `nodes_length`, every tracked node
    records its own slot as `index`, every tracked blossom has distinct, tracked,
    Stay-state members pointing back to it, and the two running totals agree
    with the per-node sums. -/
structure InterfaceInv (s : Store) (self : DualModuleInterface) : Prop where
  len_eq : self.nodes.length = self.nodes_length
  fresh_bound : ∀ id node, s.data id = some node → id < s.fresh
  indexed : ∀ (i : Nat) (id : Nat), self.nodes[i]? = some (some id) →
      ∃ node, s.data id = some node ∧ node.index = i
  members_ok : ∀ (i : Nat) (blossom_id : Nat) (bnode : DualNode)
      (circ : List Nat) (touching : List (Nat × Nat)),
      self.nodes[i]? = some (some blossom_id) →
      s.data blossom_id = some bnode →
      bnode.node_class = .Blossom circ touching →
      circ.Nodup ∧ ∀ m ∈ circ, ∃ mnode, s.data m = some mnode ∧
        mnode.parent_blossom = some blossom_id ∧
        mnode.grow_state = .Stay ∧
        self.nodes[mnode.index]? = some (some m)
  sum_dual_ok : self.sum_dual_variables = sumDual s self.dual_variable_global_progress self.nodes
  sum_speed_ok : self.sum_grow_speed = sumSpeed s self.nodes

/-- One public operation of the interface, with its documented preconditions
    (claim C3: "with satisfied preconditions").  For `fuse`, the two absorbed
    interfaces are themselves results of the same public operations, which is
    rendered as requiring their invariant and disjointness of the node sets. -/
inductive Step : Store → DualModuleInterface → Store → DualModuleInterface → Prop
  | create_syndrome (s : Store) (self : DualModuleInterface) (vertex_idx : Nat) :
      Step s self (create_syndrome_node s self vertex_idx).1
        (create_syndrome_node s self vertex_idx).2.1
  | set_grow (s : Store) (self : DualModuleInterface) (id : Nat) (gs : DualNodeGrowState)
      (s' : Store) (self' : DualModuleInterface)
      (hbelong : check_ptr_belonging s self id = true)
      (h : set_grow_state s self id gs = .ok (s', self')) :
      Step s self s' self'
  | create_bloss (s : Store) (self : DualModuleInterface) (nodes_circle : List Nat)
      (touching_children : List (Nat × Nat)) (s' : Store) (self' : DualModuleInterface)
      (blossom_id : Nat)
      (hnodup : nodes_circle.Nodup)
      (hmem : ∀ (k : Nat) (hk : k < nodes_circle.length), ∃ node,
          s.data (nodes_circle.get ⟨k, hk⟩) = some node ∧
          check_ptr_belonging s self (nodes_circle.get ⟨k, hk⟩) = true ∧
          node.parent_blossom = none ∧
          node.grow_state = (if k % 2 = 0 then DualNodeGrowState.Grow else DualNodeGrowState.Shrink))
      (h : create_blossom s self nodes_circle touching_children = .ok (s', self', blossom_id)) :
      Step s self s' self'
  | expand_bloss (s : Store) (self : DualModuleInterface) (blossom_id : Nat) (bnode : DualNode)
      (circ : List Nat) (touching : List (Nat × Nat)) (s' : Store) (self' : DualModuleInterface)
      (hnode : s.data blossom_id = some bnode)
      (hclass : bnode.node_class = .Blossom circ touching)
      (htracked : self.nodes[bnode.index]? = some (some blossom_id))
      (hzero : bnode.get_dual_variable self.dual_variable_global_progress = 0)
      (hparent : bnode.parent_blossom = none)
      (h : expand_blossom s self blossom_id = .ok (s', self')) :
      Step s self s' self'
  | grow_step (s : Store) (self : DualModuleInterface) (length : Weight) :
      Step s self s (grow self length)
  | fuse_step (s : Store) (self left right : DualModuleInterface)
      (s' : Store) (self' : DualModuleInterface)
      (hleft : InterfaceInv s left) (hright : InterfaceInv s right)
      (hdisjoint_lr : ∀ id, trackedIn left id → trackedIn right id → False)
      (hdisjoint_sl : ∀ id, trackedIn self id → trackedIn left id → False)
      (hdisjoint_sr : ∀ id, trackedIn self id → trackedIn right id → False)
      (h : fuse s self left right = .ok (s', self')) :
      Step s self s' self'

/-- States reachable from an empty interface by the public operations. -/
inductive Reachable : Store → DualModuleInterface → Prop
  | init : Reachable Store.empty DualModuleInterface.new_empty
  | step {s : Store} {self : DualModuleInterface} {s' : Store} {self' : DualModuleInterface}
      (h : Reachable s self) (hstep : Step s self s' self') : Reachable s' self'

/-- Claim C1's round trip: `create_blossom` with defaulted touching children,
    immediately followed by `expand_blossom` of the result. -/
def blossom_round_trip (s : Store) (self : DualModuleInterface) (nodes_circle : List Nat) :
    Except String (Store × DualModuleInterface) :=
  match create_blossom s self nodes_circle [] with
  | .error e => .error e
  | .ok res => expand_blossom res.1 res.2.1 res.2.2

/-- The `sum_grow_speed` after a round trip (for the concrete counterexample). -/
def round_trip_speed (s : Store) (self : DualModuleInterface) (nodes_circle : List Nat) :
    Option Weight :=
  match blossom_round_trip s self nodes_circle with
  | .ok res => some res.2.sum_grow_speed
  | .error _ => none

/-- The store after a fuse (for the concrete counterexample of claim C5). -/
def fuseResultStore (s : Store) (self left right : DualModuleInterface) : Store :=
  match fuse s self left right with
  | .ok res => res.1
  | .error _ => s

/-
  Model for claim C9: the `is_active` discipline of
  `PrimalModuleParallelUnitPtr::iterative_solve_step_callback` in
  `debug_sequential` mode (src/primal_module_parallel.rs).  Serial solving,
  fusing, break-matching and syndrome loading never touch `is_active`, so only
  the tree of flags is modelled; asserts are errors.
-/

/-- A partition-tree unit: leaves own vertex ranges, inner units fuse children. -/
inductive UnitTree
  | leaf (is_active : Bool)
  | node (is_active : Bool) (left : UnitTree) (right : UnitTree)
deriving DecidableEq, Repr

def UnitTree.is_active : UnitTree → Bool
  | .leaf a => a
  | .node a _ _ => a

def UnitTree.setActive : UnitTree → Bool → UnitTree
  | .leaf _, b => .leaf b
  | .node _ l r, b => .node b l r

/-- Events of the solve: a leaf serially solved, a child deactivated by its
    parent (recording the flag it had at that moment, which the source
    asserts to be true), and a parent fused.  Units are identified by their
    path from the entry unit (false = left child, true = right child). -/
inductive SolveEvent
  | solvedLeaf (path : List Bool)
  | deactivated (path : List Bool) (was_active : Bool)
  | fusedAt (path : List Bool)
deriving DecidableEq, Repr

def SolveEvent.path : SolveEvent → List Bool
  | .solvedLeaf p => p
  | .deactivated p _ => p
  | .fusedAt p => p

/-- Source: `iterative_solve_step_callback` (debug_sequential mode), restricted
    to its effect on the `is_active` flags, with the emitted event trace. -/
def iterative_solve (path : List Bool) : UnitTree → Except String (UnitTree × List SolveEvent)
  | .leaf a =>
    if !a then .error "leaf must be active to be solved"
    else .ok (.leaf true, [.solvedLeaf path])
  | .node a l r =>
    if a then .error "parent must be inactive at the time of solving children"
    else
      match iterative_solve (path ++ [false]) l with
      | .error e => .error e
      | .ok lres =>
        match iterative_solve (path ++ [true]) r with
        | .error e => .error e
        | .ok rres =>
          if !lres.1.is_active || !rres.1.is_active then .error "cannot fuse inactive children"
          else
            .ok (.node true (lres.1.setActive false) (rres.1.setActive false),
              lres.2 ++ rres.2 ++
                [.deactivated (path ++ [false]) lres.1.is_active,
                 .deactivated (path ++ [true]) rres.1.is_active,
                 .fusedAt path])

/-- The initial flag assignment of `PrimalModuleParallelUnitPtr::new_wrapper`:
    leaves active, internal units inactive. -/
def UnitTree.standard : UnitTree → Bool
  | .leaf a => a
  | .node a l r => !a && l.standard && r.standard

/-- The tree after a successful solve: every unit set itself active at the end
    of its own call, after which its parent (if any) deactivated it. -/
def UnitTree.solvedResult : UnitTree → UnitTree
  | .leaf _ => .leaf true
  | .node _ l r => .node true (l.solvedResult.setActive false) (r.solvedResult.setActive false)

/-- The canonical event trace of a successful solve from standard flags: both
    children finish (and are then active), are deactivated, and only then is the
    parent fused. -/
def canonicalTrace (path : List Bool) : UnitTree → List SolveEvent
  | .leaf _ => [.solvedLeaf path]
  | .node _ l r =>
      canonicalTrace (path ++ [false]) l ++ canonicalTrace (path ++ [true]) r ++
        [.deactivated (path ++ [false]) true, .deactivated (path ++ [true]) true, .fusedAt path]

/-
  Concrete states used by witnesses and counterexamples.
-/

/-- A syndrome-vertex node with trivial dual-variable cache. -/
def exampleNode (i v : Nat) (gs : DualNodeGrowState) : DualNode :=
  { index := i
    node_class := .SyndromeVertex v
    grow_state := gs
    parent_blossom := none
    dual_variable_cache := (0, 0) }

/-- Four syndrome nodes, id `i` at index `i`, syndrome vertices 7,8,9,10. -/
def exStore4 : Store := Store.ofList
  [exampleNode 0 7 .Grow, exampleNode 1 8 .Grow, exampleNode 2 9 .Grow, exampleNode 3 10 .Grow]

/-- A growing syndrome node and a shrinking syndrome node. -/
def exPairStore : Store := Store.ofList [exampleNode 0 0 .Grow, exampleNode 1 1 .Shrink]

/-- Interface tracking nodes 0 and 1. -/
def exPairInterface : DualModuleInterface :=
  { nodes := [some 0, some 1]
    nodes_length := 2
    sum_grow_speed := 0
    sum_dual_variables := 0
    dual_variable_global_progress := 0 }

/-- A shrinking top-level blossom-class node (member for claim C8). -/
def exBlossomMember : DualNode :=
  { index := 1
    node_class := .Blossom [] []
    grow_state := .Shrink
    parent_blossom := none
    dual_variable_cache := (0, 0) }

/-- A growing syndrome node and a shrinking top-level blossom. -/
def exMixedStore : Store := Store.ofList [exampleNode 0 0 .Grow, exBlossomMember]

/-- Store for the fuse counterexample of claim C5: ids 0 and 1 are the nodes of
    one interface (indices 0, 1), id 2 is the node of another (index 0). -/
def exFuseStore : Store := Store.ofList
  [exampleNode 0 5 .Grow, exampleNode 1 6 .Grow, exampleNode 0 7 .Grow]

/-- Interface tracking only node 2 (whose `index` is 0). -/
def exRightInterface : DualModuleInterface :=
  { nodes := [some 2]
    nodes_length := 1
    sum_grow_speed := 1
    sum_dual_variables := 0
    dual_variable_global_progress := 0 }

/-- One create_syndrome_node step from the empty state (witness for C3). -/
def c3wRes : Store × DualModuleInterface × Nat :=
  create_syndrome_node Store.empty DualModuleInterface.new_empty 7

/-- Two successive `add` calls on a group (for concrete computations). -/
def addTwice (s : Store) (fuel : Nat) (g : GroupMaxUpdateLength)
    (m1 m2 : MaxUpdateLength) : Option GroupMaxUpdateLength :=
  (GroupMaxUpdateLength.add s fuel g m1).bind
    (fun g1 => GroupMaxUpdateLength.add s fuel g1 m2)

/-
  ===========================  Theorems  ===========================
-/

/-- `compare` on naturals ignores a common left bias. -/
theorem compare_add_bias (b i j : Nat) : compare (b + i) (b + j) = compare i j := by
  rcases lt_trichotomy i j with h | h | h
  · rw [compare_lt_iff_lt.2 (by omega : b + i < b + j), compare_lt_iff_lt.2 h]
  · subst h
    rw [compare_eq_iff_eq.2 rfl]
    exact (compare_eq_iff_eq.2 rfl).symm
  · rw [compare_gt_iff_gt.2 (by omega : b + i > b + j), compare_gt_iff_gt.2 h]

/-- C10: calling `pop()` or `peek()` on a group in the `NonZeroGrow` form
    (including the empty group `NonZeroGrow(MAX)`) fails loudly rather than
    returning `None`; only a group in the `Conflicts` form returns a value or
    `None`. -/
theorem C10_pop_peek_panic :
    (∀ (s : Store) (w : Weight),
      (GroupMaxUpdateLength.pop s (.NonZeroGrow w)).isOk = false ∧
      (GroupMaxUpdateLength.peek s (.NonZeroGrow w)).isOk = false) ∧
    (∀ (s : Store) (heap : ConflictHeap) (pending : PendingStops),
      (GroupMaxUpdateLength.pop s (.Conflicts heap pending)).isOk = true ∧
      (GroupMaxUpdateLength.peek s (.Conflicts heap pending)).isOk = true) := by
  refine ⟨fun s w => ⟨rfl, rfl⟩, fun s heap pending => ⟨?_, ?_⟩⟩
  · rcases hh : heapPop s heap with _ | mh
    · rcases hp : pending.head? with _ | kv
      · simp [GroupMaxUpdateLength.pop, hh, hp, Except.isOk, Except.toBool]
      · simp [GroupMaxUpdateLength.pop, hh, hp, Except.isOk, Except.toBool]
    · simp [GroupMaxUpdateLength.pop, hh, Except.isOk, Except.toBool]
  · rcases hh : heapPeek s heap with _ | m
    · by_cases hp : pending.isEmpty <;>
        simp [GroupMaxUpdateLength.peek, hh, hp, Except.isOk, Except.toBool]
    · simp [GroupMaxUpdateLength.peek, hh, Except.isOk, Except.toBool]

/-- C6: `add` on a `NonZeroGrow(w)` group reduces the bound to `min(w, w')` for
    another `NonZeroGrow(w')`, while any conflict variant promotes the group to
    the `Conflicts` form containing that conflict (in the heap or as a pending
    shrink-stop); a group already in the `Conflicts` form ignores `NonZeroGrow`
    additions. -/
theorem C6_group_add (s : Store) (fuel : Nat) :
    (∀ w w' : Weight,
      GroupMaxUpdateLength.add s fuel (.NonZeroGrow w) (.NonZeroGrow w') =
        some (.NonZeroGrow (min w w'))) ∧
    (∀ (w : Weight) (m : MaxUpdateLength) (g' : GroupMaxUpdateLength), m.tagRank ≠ 0 →
      GroupMaxUpdateLength.add s fuel (.NonZeroGrow w) m = some g' →
      ∃ heap pending, g' = .Conflicts heap pending ∧
        (m ∈ heap ∨ ∃ v, (v, m) ∈ pending)) ∧
    (∀ (heap : ConflictHeap) (pending : PendingStops) (w' : Weight),
      GroupMaxUpdateLength.add s fuel (.Conflicts heap pending) (.NonZeroGrow w') =
        some (.Conflicts heap pending)) := by
  refine ⟨fun w w' => rfl, ?_, fun heap pending w' => rfl⟩
  intro w m g' htag hadd
  cases m with
  | NonZeroGrow _ => simp [MaxUpdateLength.tagRank] at htag
  | Conflicting p1 p2 =>
    simp only [GroupMaxUpdateLength.add, MaxUpdateLength.get_vertex_shrink_stop,
      heapPush, Option.some.injEq] at hadd
    exact ⟨_, _, hadd.symm, Or.inl (List.mem_singleton.2 rfl)⟩
  | TouchingVirtual p v =>
    simp only [GroupMaxUpdateLength.add, MaxUpdateLength.get_vertex_shrink_stop,
      heapPush, Option.some.injEq] at hadd
    exact ⟨_, _, hadd.symm, Or.inl (List.mem_singleton.2 rfl)⟩
  | BlossomNeedExpand a =>
    simp only [GroupMaxUpdateLength.add, MaxUpdateLength.get_vertex_shrink_stop,
      heapPush, Option.some.injEq] at hadd
    exact ⟨_, _, hadd.symm, Or.inl (List.mem_singleton.2 rfl)⟩
  | VertexShrinkStop pr =>
    obtain ⟨a, op⟩ := pr
    simp only [GroupMaxUpdateLength.add, MaxUpdateLength.get_vertex_shrink_stop] at hadd
    rcases hrep : get_representative_vertex s fuel a with _ | v
    · rw [hrep] at hadd
      cases hadd
    · rw [hrep] at hadd
      simp only [Option.some.injEq] at hadd
      refine ⟨[], pendingInsert [] v (.VertexShrinkStop (a, op)), hadd.symm,
        Or.inr ⟨v, ?_⟩⟩
      simp [pendingInsert]

/-- C6 witness: the conflict clause instantiated at a concrete input. -/
theorem C6_group_add_witness :
    ∃ heap pending,
      (GroupMaxUpdateLength.Conflicts [.BlossomNeedExpand 0] [] : GroupMaxUpdateLength) =
        .Conflicts heap pending ∧
      ((MaxUpdateLength.BlossomNeedExpand 0) ∈ heap ∨
        ∃ v, (v, MaxUpdateLength.BlossomNeedExpand 0) ∈ pending) :=
  (C6_group_add exStore4 1).2.1 weightMAX (.BlossomNeedExpand 0)
    (.Conflicts [.BlossomNeedExpand 0] []) (by decide) rfl

/-- C2 counterexample: two shrink-stops at the same representative vertex with
    different first pair components rendezvous into `Conflicting(q, p)` — the
    incoming pair first — not `Conflicting(p, q)`; moreover, starting from a
    group that already holds a higher-priority conflict, `peek()` returns that
    conflict instead of the merged one. -/
theorem C2_counterexample :
    ((addTwice exStore4 1 (.NonZeroGrow weightMAX)
        (.VertexShrinkStop (0, some (1, 1))) (.VertexShrinkStop (0, some (2, 2)))).map
      (fun g2 => (GroupMaxUpdateLength.peek exStore4 g2).toOption) =
      some (some (some (.Conflicting (2, 2) (1, 1))))) ∧
    MaxUpdateLength.Conflicting (2, 2) (1, 1) ≠ .Conflicting (1, 1) (2, 2) ∧
    ((addTwice exStore4 1 (.Conflicts [.Conflicting (1, 1) (1, 1)] [])
        (.VertexShrinkStop (0, some (2, 2))) (.VertexShrinkStop (0, some (3, 3)))).map
      (fun g2 => (GroupMaxUpdateLength.peek exStore4 g2).toOption) =
      some (some (some (.Conflicting (1, 1) (1, 1))))) ∧
    MaxUpdateLength.Conflicting (1, 1) (1, 1) ≠ .Conflicting (2, 2) (3, 3) ∧
    MaxUpdateLength.Conflicting (1, 1) (1, 1) ≠ .Conflicting (3, 3) (2, 2) := by
  refine ⟨by decide, by decide, by decide, by decide, by decide⟩

/-- C2 (amended): for a group in the `NonZeroGrow` form, after
    `add(VertexShrinkStop(x, Some p))` whose subject has representative vertex
    `v`, then `add(VertexShrinkStop(y, Some q))` at the same `v` with
    `p.0 ≠ q.0`, the group becomes `Conflicts` with exactly the merged event
    `Conflicting(q, p)` (incoming pair first) in the heap and the pending entry
    for `v` removed, and `peek()` returns that `Conflicting(q, p)`. -/
theorem C2_rendezvous_amended (s : Store) (fuel : Nat) (w : Weight)
    (x y v : Nat) (p q : Nat × Nat)
    (hx : get_representative_vertex s fuel x = some v)
    (hy : get_representative_vertex s fuel y = some v)
    (hpq : p.1 ≠ q.1) :
    GroupMaxUpdateLength.add s fuel (.NonZeroGrow w) (.VertexShrinkStop (x, some p)) =
      some (.Conflicts [] [(v, .VertexShrinkStop (x, some p))]) ∧
    GroupMaxUpdateLength.add s fuel
        (.Conflicts [] [(v, .VertexShrinkStop (x, some p))]) (.VertexShrinkStop (y, some q)) =
      some (.Conflicts [.Conflicting q p] []) ∧
    GroupMaxUpdateLength.peek s (.Conflicts [.Conflicting q p] []) =
      .ok (some (.Conflicting q p)) := by
  refine ⟨?_, ?_, ?_⟩
  · simp [GroupMaxUpdateLength.add, MaxUpdateLength.get_vertex_shrink_stop, hx, pendingInsert]
  · have hqp : q.1 ≠ p.1 := fun h => hpq h.symm
    simp [GroupMaxUpdateLength.add, add_pending_stop, MaxUpdateLength.get_vertex_shrink_stop,
      hy, pendingGet, pendingRemove, hqp, heapPush]
  · simp [GroupMaxUpdateLength.peek, heapPeek]

/-- C2 witness: the amended rendezvous at a concrete store and inputs. -/
theorem C2_rendezvous_amended_witness :
    GroupMaxUpdateLength.add exStore4 1 (.NonZeroGrow weightMAX)
        (.VertexShrinkStop (0, some (1, 1))) =
      some (.Conflicts [] [(7, .VertexShrinkStop (0, some (1, 1)))]) ∧
    GroupMaxUpdateLength.add exStore4 1
        (.Conflicts [] [(7, .VertexShrinkStop (0, some (1, 1)))])
        (.VertexShrinkStop (0, some (2, 2))) =
      some (.Conflicts [.Conflicting (2, 2) (1, 1)] []) ∧
    GroupMaxUpdateLength.peek exStore4 (.Conflicts [.Conflicting (2, 2) (1, 1)] []) =
      .ok (some (.Conflicting (2, 2) (1, 1))) :=
  C2_rendezvous_amended exStore4 1 weightMAX 0 0 7 (1, 1) (2, 2)
    (by decide) (by decide) (by decide)

/-- C4: the conflict ordering ranks (highest first) Conflicting above
    TouchingVirtual above BlossomNeedExpand above VertexShrinkStop; within the
    Conflicting and TouchingVirtual tags the comparison of the involved
    dual-node identities is reversed, while within VertexShrinkStop and
    BlossomNeedExpand it is not. -/
theorem C4_conflict_priority (s : Store) :
    (∀ a b : MaxUpdateLength, a.tagRank ≠ 0 → b.tagRank ≠ 0 →
      (a.tagRank < b.tagRank → MaxUpdateLength.cmp s a b = Ordering.lt) ∧
      (b.tagRank < a.tagRank → MaxUpdateLength.cmp s a b = Ordering.gt)) ∧
    (∀ x1 t1 x2 t2 y1 u1 y2 u2 : Nat,
      MaxUpdateLength.cmp s (.Conflicting (x1, t1) (x2, t2)) (.Conflicting (y1, u1) (y2, u2)) =
        ((cmpDualNodePtr s x1 y1).swap).then ((cmpDualNodePtr s x2 y2).swap)) ∧
    (∀ (x t y u v1 v2 : Nat) (m1 m2 : Bool),
      MaxUpdateLength.cmp s (.TouchingVirtual (x, t) (v1, m1)) (.TouchingVirtual (y, u) (v2, m2)) =
        ((cmpDualNodePtr s x y).swap).then ((compare v1 v2).swap)) ∧
    (∀ x y : Nat,
      MaxUpdateLength.cmp s (.BlossomNeedExpand x) (.BlossomNeedExpand y) =
        cmpDualNodePtr s x y) ∧
    (∀ (x y : Nat) (px py : Option (Nat × Nat)),
      MaxUpdateLength.cmp s (.VertexShrinkStop (x, px)) (.VertexShrinkStop (y, py)) =
        cmpDualNodePtr s x y) := by
  have hself : ∀ z : Nat, cmpDualNodePtr s z z = Ordering.eq := by
    intro z
    unfold cmpDualNodePtr
    rcases s.data z with _ | node
    · rfl
    · exact compare_eq_iff_eq.2 rfl
  refine ⟨?_, ?_, ?_, ?_, ?_⟩
  · intro a b ha hb
    constructor <;> intro hlt <;>
      cases a <;> cases b <;>
        simp_all [MaxUpdateLength.tagRank, MaxUpdateLength.cmp]
  · intro x1 t1 x2 t2 y1 u1 y2 u2
    by_cases h : MaxUpdateLength.Conflicting (x1, t1) (x2, t2) = .Conflicting (y1, u1) (y2, u2)
    · rcases h with ⟨⟩
      simp [MaxUpdateLength.cmp, hself, Ordering.then, Ordering.swap]
    · simp [MaxUpdateLength.cmp, h]
  · intro x t y u v1 v2 m1 m2
    by_cases h : MaxUpdateLength.TouchingVirtual (x, t) (v1, m1) = .TouchingVirtual (y, u) (v2, m2)
    · rcases h with ⟨⟩
      simp [MaxUpdateLength.cmp, hself, compare_eq_iff_eq.2 (rfl : v1 = v1),
        Ordering.then, Ordering.swap]
    · simp [MaxUpdateLength.cmp, h]
  · intro x y
    by_cases h : MaxUpdateLength.BlossomNeedExpand x = .BlossomNeedExpand y
    · rcases h with ⟨⟩
      simp [MaxUpdateLength.cmp, hself]
    · simp [MaxUpdateLength.cmp, h]
  · intro x y px py
    by_cases h : MaxUpdateLength.VertexShrinkStop (x, px) = .VertexShrinkStop (y, py)
    · rcases h with ⟨⟩
      simp [MaxUpdateLength.cmp, hself]
    · simp [MaxUpdateLength.cmp, h]

/-- C4 witness: the cross-tag ranking instantiated at concrete conflicts. -/
theorem C4_conflict_priority_witness :
    MaxUpdateLength.cmp exStore4 (.VertexShrinkStop (0, none)) (.Conflicting (1, 1) (2, 2)) =
      Ordering.lt ∧
    MaxUpdateLength.cmp exStore4 (.Conflicting (1, 1) (2, 2)) (.TouchingVirtual (0, 0) (5, false)) =
      Ordering.gt :=
  ⟨((C4_conflict_priority exStore4).1 _ _ (by decide) (by decide)).1 (by decide),
   ((C4_conflict_priority exStore4).1 _ _ (by decide) (by decide)).2 (by decide)⟩

/-- C5 counterexample: `fuse` rebases node indices, and the index-based pointer
    order of two pre-existing dual nodes from different interfaces flips. -/
theorem C5_counterexample :
    cmpDualNodePtr exFuseStore 1 2 = Ordering.gt ∧
    cmpDualNodePtr
      (fuseResultStore exFuseStore DualModuleInterface.new_empty exPairInterface exRightInterface)
      1 2 = Ordering.lt := by
  constructor <;> decide

/-- C8 counterexample: `create_blossom` with an empty `touching_children` list
    is permitted on a circle whose second member is a blossom-class node — the
    source never checks that members are syndrome vertices. -/
theorem C8_counterexample :
    (create_blossom exMixedStore exPairInterface [0, 1] []).isOk = true ∧
    exBlossomMember.node_class.is_blossom = true := by
  constructor <;> decide

/-- The root of a solved (sub)tree is active: every call ends by setting its
    own unit active. -/
theorem solvedResult_active (t : UnitTree) : (t.solvedResult).is_active = true := by
  cases t <;> rfl

/-- From the standard initial flags (leaves active, internal units inactive),
    the debug_sequential solve succeeds, yields the solved flags, and emits the
    canonical trace. -/
theorem iterative_solve_standard (t : UnitTree) (p : List Bool) (h : t.standard = true) :
    iterative_solve p t = .ok (t.solvedResult, canonicalTrace p t) := by
  induction t generalizing p with
  | leaf a =>
    simp only [UnitTree.standard] at h
    subst h
    rfl
  | node a l r ihl ihr =>
    simp only [UnitTree.standard, Bool.and_eq_true, Bool.not_eq_true'] at h
    obtain ⟨⟨ha, hl⟩, hr⟩ := h
    subst ha
    rw [iterative_solve, ihl _ hl, ihr _ hr]
    simp [solvedResult_active, UnitTree.solvedResult, canonicalTrace]

/-- Every event of the canonical trace of a subtree at `p` has a path
    extending `p`. -/
theorem canonicalTrace_path (t : UnitTree) (p : List Bool) (e : SolveEvent)
    (he : e ∈ canonicalTrace p t) : ∃ q, e.path = p ++ q := by
  induction t generalizing p with
  | leaf a =>
    simp only [canonicalTrace, List.mem_singleton] at he
    subst he
    exact ⟨[], by simp [SolveEvent.path]⟩
  | node a l r ihl ihr =>
    simp only [canonicalTrace, List.mem_append] at he
    rcases he with (h | h) | h
    · obtain ⟨q, hq⟩ := ihl _ h
      exact ⟨[false] ++ q, by simp [hq]⟩
    · obtain ⟨q, hq⟩ := ihr _ h
      exact ⟨[true] ++ q, by simp [hq]⟩
    · simp only [List.mem_cons, List.not_mem_nil, or_false] at h
      rcases h with h | h | h <;> subst h
      · exact ⟨[false], by simp [SolveEvent.path]⟩
      · exact ⟨[true], by simp [SolveEvent.path]⟩
      · exact ⟨[], by simp [SolveEvent.path]⟩

/-- A leaf-solved event appears at most once in a canonical trace. -/
theorem canonicalTrace_count_solvedLeaf (t : UnitTree) (p q : List Bool) :
    (canonicalTrace p t).count (.solvedLeaf q) ≤ 1 := by
  induction t generalizing p with
  | leaf a =>
    exact le_trans (List.count_le_length _ _) (by simp [canonicalTrace])
  | node a l r ihl ihr =>
    rw [canonicalTrace, List.count_append, List.count_append]
    have htail :
        ([SolveEvent.deactivated (p ++ [false]) true, .deactivated (p ++ [true]) true,
          .fusedAt p] : List SolveEvent).count (.solvedLeaf q) = 0 :=
      List.count_eq_zero.2 (by simp)
    rcases Nat.eq_zero_or_pos ((canonicalTrace (p ++ [false]) l).count (.solvedLeaf q))
      with h0 | hpos
    · have := ihr (p ++ [true])
      omega
    · have hmem : (SolveEvent.solvedLeaf q) ∈ canonicalTrace (p ++ [false]) l :=
        List.count_pos_iff.1 hpos
      obtain ⟨q1, hq1⟩ := canonicalTrace_path _ _ _ hmem
      simp only [SolveEvent.path] at hq1
      have hzero : (canonicalTrace (p ++ [true]) r).count (.solvedLeaf q) = 0 := by
        rw [List.count_eq_zero]
        intro hmem2
        obtain ⟨q2, hq2⟩ := canonicalTrace_path _ _ _ hmem2
        simp only [SolveEvent.path] at hq2
        rw [hq1, List.append_assoc, List.append_assoc] at hq2
        have := List.append_cancel_left hq2
        simp at this
      have := ihl (p ++ [false])
      omega

/-- A fuse event appears at most once in a canonical trace. -/
theorem canonicalTrace_count_fusedAt (t : UnitTree) (p q : List Bool) :
    (canonicalTrace p t).count (.fusedAt q) ≤ 1 := by
  induction t generalizing p with
  | leaf a =>
    simp [canonicalTrace, List.count_eq_zero.2]
  | node a l r ihl ihr =>
    rw [canonicalTrace, List.count_append, List.count_append]
    by_cases hqp : q = p
    · subst hqp
      have hL : (canonicalTrace (q ++ [false]) l).count (.fusedAt q) = 0 := by
        rw [List.count_eq_zero]
        intro hmem
        obtain ⟨q1, hq1⟩ := canonicalTrace_path _ _ _ hmem
        simp only [SolveEvent.path] at hq1
        have := congrArg List.length hq1
        simp at this
      have hR : (canonicalTrace (q ++ [true]) r).count (.fusedAt q) = 0 := by
        rw [List.count_eq_zero]
        intro hmem
        obtain ⟨q1, hq1⟩ := canonicalTrace_path _ _ _ hmem
        simp only [SolveEvent.path] at hq1
        have := congrArg List.length hq1
        simp at this
      have htail :
          ([SolveEvent.deactivated (q ++ [false]) true, .deactivated (q ++ [true]) true,
            .fusedAt q] : List SolveEvent).count (.fusedAt q) = 1 := by
        simp [List.count_cons]
      omega
    · have htail :
          ([SolveEvent.deactivated (p ++ [false]) true, .deactivated (p ++ [true]) true,
            .fusedAt p] : List SolveEvent).count (.fusedAt q) = 0 :=
        List.count_eq_zero.2 (by simp [hqp])
      rcases Nat.eq_zero_or_pos ((canonicalTrace (p ++ [false]) l).count (.fusedAt q))
        with h0 | hpos
      · have := ihr (p ++ [true])
        omega
      · have hmem : (SolveEvent.fusedAt q) ∈ canonicalTrace (p ++ [false]) l :=
          List.count_pos_iff.1 hpos
        obtain ⟨q1, hq1⟩ := canonicalTrace_path _ _ _ hmem
        simp only [SolveEvent.path] at hq1
        have hzero : (canonicalTrace (p ++ [true]) r).count (.fusedAt q) = 0 := by
          rw [List.count_eq_zero]
          intro hmem2
          obtain ⟨q2, hq2⟩ := canonicalTrace_path _ _ _ hmem2
          simp only [SolveEvent.path] at hq2
          rw [hq1, List.append_assoc, List.append_assoc] at hq2
          have := List.append_cancel_left hq2
          simp at this
        have := ihl (p ++ [false])
        omega

/-- Every deactivation in a canonical trace found its child active. -/
theorem canonicalTrace_deactivated_true (t : UnitTree) (p q : List Bool) (b : Bool)
    (he : SolveEvent.deactivated q b ∈ canonicalTrace p t) : b = true := by
  induction t generalizing p with
  | leaf a => simp [canonicalTrace] at he
  | node a l r ihl ihr =>
    simp only [canonicalTrace, List.mem_append] at he
    rcases he with (h | h) | h
    · exact ihl _ h
    · exact ihr _ h
    · simp only [List.mem_cons, List.not_mem_nil, or_false] at h
      rcases h with h | h | h <;> simp_all

/-- C9: in debug_sequential mode, from the standard initial flags (leaves
    active, internal units inactive), `iterative_solve_step_callback` on a unit
    succeeds and returns with that unit active; each child is active when its
    recursive solve returns and is deactivated before the parent's fuse (the
    canonical trace lists both deactivations, with the observed flag true,
    immediately before the parent's fuse event); each unit is solved or fused
    at most once; and a leaf whose flag is false fails loudly. -/
theorem C9_solve_discipline (t : UnitTree) (p : List Bool) (h : t.standard = true) :
    (iterative_solve p t = .ok (t.solvedResult, canonicalTrace p t)) ∧
    (t.solvedResult).is_active = true ∧
    (∀ (q : List Bool) (b : Bool),
      SolveEvent.deactivated q b ∈ canonicalTrace p t → b = true) ∧
    (∀ q : List Bool, (canonicalTrace p t).count (.solvedLeaf q) ≤ 1 ∧
      (canonicalTrace p t).count (.fusedAt q) ≤ 1) ∧
    (iterative_solve p (.leaf false) = .error "leaf must be active to be solved") :=
  ⟨iterative_solve_standard t p h, solvedResult_active t,
   fun q b hb => canonicalTrace_deactivated_true t p q b hb,
   fun q => ⟨canonicalTrace_count_solvedLeaf t p q, canonicalTrace_count_fusedAt t p q⟩,
   rfl⟩

/-- C9 witness: the solve discipline at a concrete two-leaf tree. -/
theorem C9_solve_discipline_witness :
    iterative_solve [] (UnitTree.node false (.leaf true) (.leaf true)) =
      .ok ((UnitTree.node false (.leaf true) (.leaf true)).solvedResult,
           canonicalTrace [] (UnitTree.node false (.leaf true) (.leaf true))) :=
  (C9_solve_discipline (UnitTree.node false (.leaf true) (.leaf true)) [] (by decide)).1

/-
  Sum bookkeeping helpers for the interface invariants.
-/

/-- Pointwise-equal slot summands give equal sums. -/
theorem sum_map_congr_mem (f g : Option Nat → Weight) (l : List (Option Nat))
    (h : ∀ o ∈ l, g o = f o) : (l.map g).sum = (l.map f).sum := by
  rw [List.map_eq_map_iff.mpr h]

/-- Changing the summand of one key by `d` changes the sum by multiplicity times `d`. -/
theorem sum_map_update (f g : Option Nat → Weight) (k : Option Nat) (d : Weight)
    (hne : ∀ o, o ≠ k → g o = f o) (hk : g k = f k + d) :
    ∀ l : List (Option Nat), (l.map g).sum = (l.map f).sum + (l.count k : Weight) * d := by
  intro l
  induction l with
  | nil => simp
  | cons o t ih =>
    by_cases ho : o = k
    · subst ho
      rw [List.map_cons, List.map_cons, List.sum_cons, List.sum_cons, ih, hk, List.count_cons]
      simp only [beq_self_eq_true, if_true]
      push_cast
      ring
    · rw [List.map_cons, List.map_cons, List.sum_cons, List.sum_cons, ih, hne o ho,
        List.count_cons]
      simp only [beq_iff_eq, ho, if_false]
      ring

/-- A pointwise affine shift of the summand shifts the sum linearly. -/
theorem sum_map_linear (f g h : Option Nat → Weight) (d : Weight)
    (hpt : ∀ o, g o = f o + d * h o) :
    ∀ l : List (Option Nat), (l.map g).sum = (l.map f).sum + d * (l.map h).sum := by
  intro l
  induction l with
  | nil => simp
  | cons o t ih =>
    simp only [List.map_cons, List.sum_cons, hpt o, ih]
    ring

/-- A slot value occupying a unique position occurs exactly once. -/
theorem count_eq_one_of_unique (l : List (Option Nat)) (k : Option Nat) :
    ∀ j : Nat, l[j]? = some k → (∀ j', l[j']? = some k → j' = j) → l.count k = 1 := by
  induction l with
  | nil =>
    intro j hj _
    simp at hj
  | cons o t ih =>
    intro j hj huniq
    cases j with
    | zero =>
      simp only [List.getElem?_cons_zero, Option.some.injEq] at hj
      subst hj
      have ht : t.count o = 0 := by
        rw [List.count_eq_zero]
        intro hmem
        obtain ⟨i, hi⟩ := List.mem_iff_getElem?.1 hmem
        have := huniq (i + 1) (by simpa using hi)
        omega
      rw [List.count_cons, ht]
      simp
    | succ j' =>
      have hne : o ≠ k := by
        intro h
        have := huniq 0 (by simp [h])
        omega
      rw [List.count_cons]
      simp only [beq_iff_eq, hne, if_false, Nat.add_zero]
      exact ih j' (by simpa using hj) (fun i hi => by
        have := huniq (i + 1) (by simpa using hi)
        omega)

/-- Removing the value at a slot subtracts its summand. -/
theorem sum_map_set_none (f : Option Nat → Weight) (hf : f none = 0) :
    ∀ (l : List (Option Nat)) (idx : Nat) (k : Option Nat), l[idx]? = some k →
      ((l.set idx none).map f).sum = (l.map f).sum - f k := by
  intro l
  induction l with
  | nil =>
    intro idx k h
    simp at h
  | cons o t ih =>
    intro idx k h
    cases idx with
    | zero =>
      simp only [List.getElem?_cons_zero, Option.some.injEq] at h
      subst h
      simp only [List.set_cons_zero, List.map_cons, List.sum_cons, hf]
      ring
    | succ i =>
      simp only [List.getElem?_cons_succ] at h
      simp only [List.set_cons_succ, List.map_cons, List.sum_cons, ih i k h]
      ring

/-- Writing the last element of a one-longer list. -/
theorem set_append_last {α : Type} (l : List α) (x y : α) :
    (l ++ [x]).set l.length y = l ++ [y] := by
  induction l with
  | nil => rfl
  | cons a t ih => simp [ih]

/-- Refreshing the cache at the current progress (what `set_grow_state` does)
    preserves the dual variable. -/
theorem get_dual_variable_refresh (node : DualNode) (gp : Weight) (gs : DualNodeGrowState) :
    DualNode.get_dual_variable
      { node with dual_variable_cache := (node.get_dual_variable gp, gp), grow_state := gs }
      gp = node.get_dual_variable gp := by
  cases gs <;> simp [DualNode.get_dual_variable]

/-- Replacing a stored node by one with the same dual variable leaves the dual
    sum unchanged. -/
theorem sumDual_setNode (s : Store) (id : Nat) (node node' : DualNode) (gp : Weight)
    (hdata : s.data id = some node)
    (hval : node'.get_dual_variable gp = node.get_dual_variable gp)
    (nodes : List (Option Nat)) :
    sumDual (s.setNode id node') gp nodes = sumDual s gp nodes := by
  apply sum_map_congr_mem
  intro o _
  rcases o with _ | m
  · rfl
  · by_cases hm : m = id
    · subst hm
      simp [slotDual, Store.setNode, hdata, hval]
    · simp [slotDual, Store.setNode, hm]

/-- Replacing a stored node whose id occupies a unique slot changes the speed
    sum by the speed delta. -/
theorem sumSpeed_setNode (s : Store) (id : Nat) (node node' : DualNode)
    (hdata : s.data id = some node) (nodes : List (Option Nat)) (j : Nat)
    (hj : nodes[j]? = some (some id)) (huniq : ∀ j', nodes[j']? = some (some id) → j' = j) :
    sumSpeed (s.setNode id node') nodes =
      sumSpeed s nodes + (growSpeed node'.grow_state - growSpeed node.grow_state) := by
  have hcount := count_eq_one_of_unique nodes (some id) j hj huniq
  have h := sum_map_update (slotSpeed s) (slotSpeed (s.setNode id node')) (some id)
    (growSpeed node'.grow_state - growSpeed node.grow_state)
    (fun o ho => by
      rcases o with _ | m
      · rfl
      · have hm : m ≠ id := fun he => ho (by rw [he])
        simp [slotSpeed, Store.setNode, hm])
    (by simp [slotSpeed, Store.setNode, hdata]) nodes
  rw [hcount] at h
  simpa [sumSpeed] using h

/-- Replacing a stored node by one with the same grow speed leaves the speed
    sum unchanged. -/
theorem sumSpeed_setNode_congr (s : Store) (id : Nat) (node node' : DualNode)
    (hdata : s.data id = some node)
    (hspeed : growSpeed node'.grow_state = growSpeed node.grow_state)
    (nodes : List (Option Nat)) :
    sumSpeed (s.setNode id node') nodes = sumSpeed s nodes := by
  apply sum_map_congr_mem
  intro o _
  rcases o with _ | m
  · rfl
  · by_cases hm : m = id
    · subst hm
      simp [slotSpeed, Store.setNode, hdata, hspeed]
    · simp [slotSpeed, Store.setNode, hm]

/-- Allocating a fresh node does not change the dual sum of slots below fresh. -/
theorem sumDual_alloc (s : Store) (node : DualNode) (gp : Weight) (nodes : List (Option Nat))
    (h : ∀ m, (some m) ∈ nodes → m ≠ s.fresh) :
    sumDual (s.alloc node).1 gp nodes = sumDual s gp nodes := by
  apply sum_map_congr_mem
  intro o ho
  rcases o with _ | m
  · rfl
  · simp [slotDual, Store.alloc, h m ho]

/-- Allocating a fresh node does not change the speed sum of slots below fresh. -/
theorem sumSpeed_alloc (s : Store) (node : DualNode) (nodes : List (Option Nat))
    (h : ∀ m, (some m) ∈ nodes → m ≠ s.fresh) :
    sumSpeed (s.alloc node).1 nodes = sumSpeed s nodes := by
  apply sum_map_congr_mem
  intro o ho
  rcases o with _ | m
  · rfl
  · simp [slotSpeed, Store.alloc, h m ho]

/-- Writing an id that occupies no slot leaves the dual sum unchanged. -/
theorem sumDual_setNode_ne (st : Store) (id : Nat) (x : DualNode) (gp : Weight)
    (nodes : List (Option Nat)) (h : ∀ m, some m ∈ nodes → m ≠ id) :
    sumDual (st.setNode id x) gp nodes = sumDual st gp nodes := by
  apply sum_map_congr_mem
  intro o ho
  rcases o with _ | m
  · rfl
  · simp [slotDual, Store.setNode, h m ho]

/-- Writing an id that occupies no slot leaves the speed sum unchanged. -/
theorem sumSpeed_setNode_ne (st : Store) (id : Nat) (x : DualNode)
    (nodes : List (Option Nat)) (h : ∀ m, some m ∈ nodes → m ≠ id) :
    sumSpeed (st.setNode id x) nodes = sumSpeed st nodes := by
  apply sum_map_congr_mem
  intro o ho
  rcases o with _ | m
  · rfl
  · simp [slotSpeed, Store.setNode, h m ho]

/-- Advancing the global progress shifts the dual sum by the speed sum. -/
theorem sumDual_shift (s : Store) (gp d : Weight) (nodes : List (Option Nat)) :
    sumDual s (gp + d) nodes = sumDual s gp nodes + d * sumSpeed s nodes := by
  apply sum_map_linear
  intro o
  rcases o with _ | m
  · simp [slotDual, slotSpeed]
  · rcases hm : s.data m with _ | node
    · simp [slotDual, slotSpeed, hm]
    · cases hgs : node.grow_state <;>
        simp [slotDual, slotSpeed, hm, DualNode.get_dual_variable, hgs, growSpeed] <;>
        ring

theorem sumDual_append (s : Store) (gp : Weight) (l1 l2 : List (Option Nat)) :
    sumDual s gp (l1 ++ l2) = sumDual s gp l1 + sumDual s gp l2 := by
  simp [sumDual, List.sum_append]

theorem sumSpeed_append (s : Store) (l1 l2 : List (Option Nat)) :
    sumSpeed s (l1 ++ l2) = sumSpeed s l1 + sumSpeed s l2 := by
  simp [sumSpeed, List.sum_append]

/-- Characterization of a successful `set_grow_state`: the node gets the new
    state with a refreshed cache and `sum_grow_speed` moves by the speed delta. -/
theorem set_grow_state_spec (s : Store) (self : DualModuleInterface) (id : Nat)
    (gs : DualNodeGrowState) (node : DualNode)
    (hdata : s.data id = some node) (hparent : node.parent_blossom = none) :
    set_grow_state s self id gs = .ok
      (s.setNode id { node with
          dual_variable_cache := (node.get_dual_variable self.dual_variable_global_progress,
            self.dual_variable_global_progress)
          grow_state := gs },
       { self with sum_grow_speed :=
          self.sum_grow_speed - growSpeed node.grow_state + growSpeed gs }) := by
  cases hgs : node.grow_state <;> cases gs <;>
    simp [set_grow_state, hdata, hparent, hgs, growSpeed, sub_eq_add_neg]

/-- The decrement `set_grow_state` applies for the old state is minus the speed. -/
theorem match_speed_dec (gs : DualNodeGrowState) :
    (match gs with
      | DualNodeGrowState.Grow => (-1 : Weight)
      | DualNodeGrowState.Shrink => 1
      | DualNodeGrowState.Stay => 0) = -growSpeed gs := by
  cases gs <;> rfl

/-- The increment `set_grow_state` applies for the new state is the speed. -/
theorem match_speed_inc (gs : DualNodeGrowState) :
    (match gs with
      | DualNodeGrowState.Grow => (1 : Weight)
      | DualNodeGrowState.Shrink => -1
      | DualNodeGrowState.Stay => 0) = growSpeed gs := by
  cases gs <;> rfl

/-- What a successful `check_ptr_belonging` guarantees. -/
theorem check_ptr_belonging_spec (s : Store) (self : DualModuleInterface) (id : Nat)
    (node : DualNode) (hdata : s.data id = some node)
    (h : check_ptr_belonging s self id = true) :
    node.index < self.nodes_length ∧ self.nodes[node.index]? = some (some id) := by
  unfold check_ptr_belonging at h
  simp only [hdata] at h
  by_cases hlen : node.index ≥ self.nodes_length
  · rw [if_pos hlen] at h
    cases h
  · rw [if_neg hlen] at h
    refine ⟨by omega, ?_⟩
    rcases hs : self.nodes[node.index]? with _ | o
    · simp [hs] at h
    · rcases o with _ | tid
      · simp [hs] at h
      · simp only [hs, decide_eq_true_eq] at h
        rw [h]

/-- `check_ptr_belonging` only looks at the node content and the node array. -/
theorem check_ptr_belonging_congr (s s' : Store) (self self' : DualModuleInterface) (id : Nat)
    (hdata : s'.data id = s.data id) (hnodes : self'.nodes = self.nodes)
    (hlen : self'.nodes_length = self.nodes_length) :
    check_ptr_belonging s' self' id = check_ptr_belonging s self id := by
  unfold check_ptr_belonging
  rw [hdata, hnodes, hlen]

/-- The circle preconditions only look at the members and the node array. -/
theorem circlePrecond_congr (s s' : Store) (self self' : DualModuleInterface)
    (hnodes : self'.nodes = self.nodes) (hlen : self'.nodes_length = self.nodes_length) :
    ∀ (circle : List Nat) (i : Nat), (∀ m ∈ circle, s'.data m = s.data m) →
      circlePrecond s self i circle → circlePrecond s' self' i circle := by
  intro circle
  induction circle with
  | nil =>
    intro i _ _
    trivial
  | cons id rest ihc =>
    intro i hdatas hpre
    obtain ⟨⟨node, hdata, hbelong, hpar, hstate⟩, hrest⟩ := hpre
    refine ⟨⟨node, ?_, ?_, hpar, hstate⟩, ihc (i + 1) (fun m hm => hdatas m (by simp [hm])) hrest⟩
    · rw [hdatas id (by simp), hdata]
    · rw [check_ptr_belonging_congr s s' self self' id (hdatas id (by simp)) hnodes hlen, hbelong]

/-- The circle speed sum only looks at the members. -/
theorem circleSpeedSum_congr (s s' : Store) (circle : List Nat)
    (h : ∀ m ∈ circle, s'.data m = s.data m) :
    circleSpeedSum s' circle = circleSpeedSum s circle := by
  unfold circleSpeedSum
  congr 1
  apply List.map_eq_map_iff.mpr
  intro m hm
  rw [h m hm]

theorem circleSpeedSum_cons (s : Store) (id : Nat) (rest : List Nat) (node : DualNode)
    (hdata : s.data id = some node) :
    circleSpeedSum s (id :: rest) = growSpeed node.grow_state + circleSpeedSum s rest := by
  simp [circleSpeedSum, hdata]

/-- The shrink count only looks at the members. -/
theorem shrinkCount_congr (s s' : Store) (circle : List Nat)
    (h : ∀ m ∈ circle, s'.data m = s.data m) :
    shrinkCount s' circle = shrinkCount s circle := by
  unfold shrinkCount
  apply List.countP_congr
  intro m hm
  rw [h m hm]

/-- A tracked node with known content sits at slot `index` and nowhere else. -/
theorem indexed_unique_slot (s : Store) (self : DualModuleInterface)
    (hindexed : indexedNodes s self) (id : Nat) (node : DualNode)
    (hdata : s.data id = some node) :
    ∀ j', self.nodes[j']? = some (some id) → j' = node.index := by
  intro j' hj'
  obtain ⟨node2, hdata2, hidx2⟩ := hindexed j' id hj'
  rw [hdata] at hdata2
  cases hdata2
  exact hidx2.symm

/-- Full characterization of the member loop of `create_blossom`: under the
    checked preconditions it succeeds, sets each member to Stay with parent
    `blossom_id` and a refreshed cache, decreases `sum_grow_speed` by the
    members' speed sum, and leaves both tracked sums consistent. -/
theorem create_blossom_loop_spec (blossom_id : Nat) :
    ∀ (circle : List Nat) (i : Nat) (s : Store) (self : DualModuleInterface),
    circlePrecond s self i circle → circle.Nodup → indexedNodes s self →
    ∃ (s' : Store) (self' : DualModuleInterface),
      create_blossom_loop blossom_id circle i s self = .ok (s', self') ∧
      self'.nodes = self.nodes ∧
      self'.nodes_length = self.nodes_length ∧
      self'.sum_dual_variables = self.sum_dual_variables ∧
      self'.dual_variable_global_progress = self.dual_variable_global_progress ∧
      self'.sum_grow_speed = self.sum_grow_speed - circleSpeedSum s circle ∧
      s'.fresh = s.fresh ∧
      (∀ id, id ∉ circle → s'.data id = s.data id) ∧
      (∀ m ∈ circle, ∃ node, s.data m = some node ∧
        s'.data m = some { node with
          grow_state := DualNodeGrowState.Stay
          parent_blossom := some blossom_id
          dual_variable_cache :=
            (node.get_dual_variable self.dual_variable_global_progress,
             self.dual_variable_global_progress) }) ∧
      sumDual s' self.dual_variable_global_progress self.nodes =
        sumDual s self.dual_variable_global_progress self.nodes ∧
      sumSpeed s' self.nodes = sumSpeed s self.nodes - circleSpeedSum s circle := by
  intro circle
  induction circle with
  | nil =>
    intro i s self _ _ _
    refine ⟨s, self, rfl, rfl, rfl, rfl, rfl, by simp [circleSpeedSum], rfl,
      fun id _ => rfl, by simp, rfl, by simp [circleSpeedSum]⟩
  | cons id rest ih =>
    intro i s self hpre hnodup hindexed
    obtain ⟨⟨nd, hdata, hbelong, hpar, hstate⟩, hrest⟩ := hpre
    obtain ⟨hidx_lt, hslot⟩ := check_ptr_belonging_spec s self id nd hdata hbelong
    have huniq := indexed_unique_slot s self hindexed id nd hdata
    have hid_rest : id ∉ rest := (List.nodup_cons.1 hnodup).1
    set refreshed : DualNode :=
      { nd with
        dual_variable_cache :=
          (nd.get_dual_variable self.dual_variable_global_progress,
           self.dual_variable_global_progress)
        grow_state := DualNodeGrowState.Stay } with hrefreshed
    set node2 : DualNode := { refreshed with parent_blossom := some blossom_id } with hnode2
    set s1 : Store := s.setNode id refreshed with hs1def
    set s2 : Store := s1.setNode id node2 with hs2def
    set self1 : DualModuleInterface :=
      { self with sum_grow_speed :=
          self.sum_grow_speed - growSpeed nd.grow_state + growSpeed DualNodeGrowState.Stay }
      with hself1
    have hone : create_blossom_loop blossom_id (id :: rest) i s self =
        create_blossom_loop blossom_id rest (i + 1) s2 self1 := by
      rw [hs2def, hs1def, hnode2, hrefreshed, hself1]
      simp only [create_blossom_loop, hbelong, Bool.not_true, Bool.false_eq_true, if_false,
        hdata, hpar, Option.isSome_none]
      rw [if_neg (show ¬(nd.grow_state ≠ (if i % 2 = 0 then DualNodeGrowState.Grow
            else DualNodeGrowState.Shrink)) from by simp [hstate])]
      rw [set_grow_state_spec s self id DualNodeGrowState.Stay nd hdata hpar]
      simp [Store.setNode, hpar]
    have hs1data : s1.data id = some refreshed := by
      rw [hs1def]
      simp [Store.setNode]
    have hs2data : s2.data id = some node2 := by
      rw [hs2def]
      simp [Store.setNode]
    have hs2fresh : s2.fresh = s.fresh := by
      rw [hs2def, hs1def]
      rfl
    have hs2data_ne : ∀ m, m ≠ id → s2.data m = s.data m := by
      intro m hm
      rw [hs2def, hs1def]
      simp [Store.setNode, hm]
    have hdatarest : ∀ m ∈ rest, s2.data m = s.data m :=
      fun m hm => hs2data_ne m (fun he => hid_rest (he ▸ hm))
    have hself1nodes : self1.nodes = self.nodes := by rw [hself1]
    have hself1len : self1.nodes_length = self.nodes_length := by rw [hself1]
    have hself1gp : self1.dual_variable_global_progress = self.dual_variable_global_progress := by
      rw [hself1]
    have hself1sd : self1.sum_dual_variables = self.sum_dual_variables := by rw [hself1]
    have hpre2 : circlePrecond s2 self1 (i + 1) rest :=
      circlePrecond_congr s s2 self self1 hself1nodes hself1len rest (i + 1) hdatarest hrest
    have hindexed2 : indexedNodes s2 self1 := by
      intro j id' hj
      rw [hself1nodes] at hj
      by_cases hid : id' = id
      · subst hid
        have hj_eq : j = nd.index := huniq j hj
        refine ⟨node2, hs2data, ?_⟩
        simp [hnode2, hrefreshed, hj_eq]
      · obtain ⟨node, hd, hi⟩ := hindexed j id' hj
        exact ⟨node, by rw [hs2data_ne id' hid, hd], hi⟩
    obtain ⟨s', self', hloop', hnodes', hlen', hsd', hgp', hspeed', hfresh', hoff', hmem',
      hsumD', hsumS'⟩ := ih (i + 1) s2 self1 hpre2 (List.nodup_cons.1 hnodup).2 hindexed2
    have hcssr : circleSpeedSum s2 rest = circleSpeedSum s rest :=
      circleSpeedSum_congr s s2 rest hdatarest
    have hcss_cons : circleSpeedSum s (id :: rest) =
        growSpeed nd.grow_state + circleSpeedSum s rest :=
      circleSpeedSum_cons s id rest nd hdata
    have hsumD2 : sumDual s2 self.dual_variable_global_progress self.nodes =
        sumDual s self.dual_variable_global_progress self.nodes := by
      have h1 : sumDual s1 self.dual_variable_global_progress self.nodes =
          sumDual s self.dual_variable_global_progress self.nodes := by
        rw [hs1def, hrefreshed]
        exact sumDual_setNode s id nd _ _ hdata
          (get_dual_variable_refresh nd self.dual_variable_global_progress _) self.nodes
      have h2 : sumDual s2 self.dual_variable_global_progress self.nodes =
          sumDual s1 self.dual_variable_global_progress self.nodes := by
        rw [hs2def]
        refine sumDual_setNode s1 id refreshed node2 _ hs1data ?_ self.nodes
        rw [hnode2, hrefreshed]
        simp [DualNode.get_dual_variable]
      rw [h2, h1]
    have hsumS2 : sumSpeed s2 self.nodes =
        sumSpeed s self.nodes - growSpeed nd.grow_state := by
      have h1 : sumSpeed s1 self.nodes =
          sumSpeed s self.nodes
            + (growSpeed DualNodeGrowState.Stay - growSpeed nd.grow_state) := by
        rw [hs1def, hrefreshed]
        exact sumSpeed_setNode s id nd _ hdata self.nodes nd.index hslot huniq
      have h2 : sumSpeed s2 self.nodes = sumSpeed s1 self.nodes := by
        rw [hs2def]
        refine sumSpeed_setNode_congr s1 id refreshed node2 hs1data ?_ self.nodes
        simp [hnode2]
      rw [h2, h1]
      simp [growSpeed]
      ring
    refine ⟨s', self', ?_, ?_, ?_, ?_, ?_, ?_, ?_, ?_, ?_, ?_, ?_⟩
    · rw [hone, hloop']
    · rw [hnodes', hself1nodes]
    · rw [hlen', hself1len]
    · rw [hsd', hself1sd]
    · rw [hgp', hself1gp]
    · rw [hspeed', hcssr, hcss_cons]
      simp [hself1, growSpeed]
      ring
    · rw [hfresh', hs2fresh]
    · intro id' hid'
      have h1 : id' ∉ rest := fun h => hid' (by simp [h])
      have h2 : id' ≠ id := fun h => hid' (by simp [h])
      rw [hoff' id' h1, hs2data_ne id' h2]
    · intro m hm
      rcases List.mem_cons.1 hm with hmeq | hmr
      · subst hmeq
        refine ⟨nd, hdata, ?_⟩
        rw [hoff' m hid_rest, hs2data, hnode2, hrefreshed]
      · obtain ⟨node, hd2, hd'⟩ := hmem' m hmr
        rw [hdatarest m hmr] at hd2
        rw [hself1gp] at hd'
        exact ⟨node, hd2, hd'⟩
    · rw [hself1gp, hself1nodes] at hsumD'
      rw [hsumD', hsumD2]
    · rw [hself1nodes] at hsumS'
      rw [hsumS', hsumS2, hcssr, hcss_cons]
      ring

/-- The circle preconditions imply every member is allocated. -/
theorem circlePrecond_data (s : Store) (self : DualModuleInterface) :
    ∀ (circle : List Nat) (i : Nat), circlePrecond s self i circle →
      ∀ m ∈ circle, ∃ node, s.data m = some node := by
  intro circle
  induction circle with
  | nil =>
    intro i _ m hm
    simp at hm
  | cons id rest ihc =>
    intro i hpre m hm
    obtain ⟨⟨node, hdata, _, _, _⟩, hrest⟩ := hpre
    rcases List.mem_cons.1 hm with hmeq | hmr
    · exact ⟨node, hmeq ▸ hdata⟩
    · exact ihc (i + 1) hrest m hmr

/-- Full characterization of a successful `create_blossom` (under its checked
    preconditions): the blossom is allocated at the next fresh id with the
    (possibly defaulted) touching children, appended at slot `nodes_length`,
    the members are re-parented and set to Stay with refreshed caches, and
    `sum_grow_speed` moves by one minus the members' speed sum. -/
theorem create_blossom_spec (s : Store) (self : DualModuleInterface)
    (nodes_circle : List Nat) (touching_children : List (Nat × Nat))
    (hlen_eq : self.nodes.length = self.nodes_length)
    (hpre : circlePrecond s self 0 nodes_circle)
    (hnodup : nodes_circle.Nodup)
    (hindexed : indexedNodes s self)
    (hfreshb : ∀ id node, s.data id = some node → id < s.fresh)
    (htlen : touching_children.length = 0 ∨
      touching_children.length = nodes_circle.length) :
    ∃ (s' : Store) (self' : DualModuleInterface),
      create_blossom s self nodes_circle touching_children = .ok (s', self', s.fresh) ∧
      s'.fresh = s.fresh + 1 ∧
      s'.data s.fresh = some
        { index := self.nodes_length
          node_class := DualNodeClass.Blossom nodes_circle
            (if touching_children.length = 0 then nodes_circle.map (fun c => (c, c))
             else touching_children)
          grow_state := DualNodeGrowState.Grow
          parent_blossom := none
          dual_variable_cache := (0, self.dual_variable_global_progress) } ∧
      (∀ id, id ∉ nodes_circle → id ≠ s.fresh → s'.data id = s.data id) ∧
      (∀ m ∈ nodes_circle, ∃ node, s.data m = some node ∧
        s'.data m = some { node with
          grow_state := DualNodeGrowState.Stay
          parent_blossom := some s.fresh
          dual_variable_cache :=
            (node.get_dual_variable self.dual_variable_global_progress,
             self.dual_variable_global_progress) }) ∧
      self'.nodes = self.nodes ++ [some s.fresh] ∧
      self'.nodes_length = self.nodes_length + 1 ∧
      self'.sum_dual_variables = self.sum_dual_variables ∧
      self'.dual_variable_global_progress = self.dual_variable_global_progress ∧
      self'.sum_grow_speed = self.sum_grow_speed - circleSpeedSum s nodes_circle + 1 ∧
      sumDual s' self.dual_variable_global_progress self.nodes =
        sumDual s self.dual_variable_global_progress self.nodes ∧
      sumSpeed s' self.nodes = sumSpeed s self.nodes - circleSpeedSum s nodes_circle := by
  have hmem_ne_fresh : ∀ m ∈ nodes_circle, m ≠ s.fresh := by
    intro m hm he
    obtain ⟨node, hdm⟩ := circlePrecond_data s self nodes_circle 0 hpre m hm
    have := hfreshb m node hdm
    omega
  set blossom : DualNode :=
    { index := self.nodes_length
      node_class := DualNodeClass.Blossom [] []
      grow_state := DualNodeGrowState.Grow
      parent_blossom := none
      dual_variable_cache := (0, self.dual_variable_global_progress) } with hblossom
  set s0 : Store := (s.alloc blossom).1 with hs0def
  have hs0fresh : s0.fresh = s.fresh + 1 := rfl
  have hs0data_ne : ∀ m, m ≠ s.fresh → s0.data m = s.data m := by
    intro m hm
    simp [hs0def, Store.alloc, hm]
  have hs0data_fresh : s0.data s.fresh = some blossom := by
    simp [hs0def, Store.alloc]
  have hdcirc : ∀ m ∈ nodes_circle, s0.data m = s.data m :=
    fun m hm => hs0data_ne m (hmem_ne_fresh m hm)
  have hpre0 : circlePrecond s0 self 0 nodes_circle :=
    circlePrecond_congr s s0 self self rfl rfl nodes_circle 0 hdcirc hpre
  have hindexed0 : indexedNodes s0 self := by
    intro j id hj
    obtain ⟨node, hd, hi⟩ := hindexed j id hj
    have hne : id ≠ s.fresh := by
      intro he
      have := hfreshb id node hd
      omega
    exact ⟨node, by rw [hs0data_ne id hne, hd], hi⟩
  obtain ⟨s1, self1, hloop, hnodes1, hlen1, hsd1, hgp1, hspeed1, hfresh1, hoff1, hmem1,
    hsumD1, hsumS1⟩ :=
    create_blossom_loop_spec s.fresh nodes_circle 0 s0 self hpre0 hnodup hindexed0
  have hfresh_not_circ : s.fresh ∉ nodes_circle := fun h => hmem_ne_fresh s.fresh h rfl
  have hs1fresh_data : s1.data s.fresh = some blossom := by
    rw [hoff1 s.fresh hfresh_not_circ, hs0data_fresh]
  set touching : List (Nat × Nat) :=
    if touching_children.length = 0 then nodes_circle.map (fun c => (c, c))
    else touching_children with htouching
  have htllen : touching.length = nodes_circle.length := by
    rw [htouching]
    rcases htlen with h | h
    · rw [if_pos h, List.length_map]
    · by_cases h0 : touching_children.length = 0
      · rw [if_pos h0, List.length_map]
      · rw [if_neg h0]
        exact h
  set s2 : Store := s1.setNode s.fresh
    { blossom with node_class := DualNodeClass.Blossom nodes_circle touching } with hs2def
  have hrun : create_blossom s self nodes_circle touching_children = .ok (s2,
      { self1 with
        nodes_length := self.nodes_length + 1
        nodes := (self1.nodes ++ [none]).set self.nodes_length (some s.fresh)
        sum_grow_speed := self1.sum_grow_speed + 1 }, s.fresh) := by
    rw [hs2def]
    have halloc : s.alloc blossom = (s0, s.fresh) := rfl
    simp only [create_blossom, ← hblossom, ← htouching, halloc]
    rw [if_neg (show ¬(touching.length ≠ nodes_circle.length) from fun hne => hne htllen)]
    simp only [hloop, hs1fresh_data]
    have hlt : self1.nodes.length < self.nodes_length + 1 := by
      rw [hnodes1, hlen_eq]
      omega
    rw [if_pos hlt]
  have hnofresh : ∀ m, some m ∈ self.nodes → m ≠ s.fresh := by
    intro m hm he
    obtain ⟨i, hi⟩ := List.mem_iff_getElem?.1 hm
    obtain ⟨node, hd, _⟩ := hindexed i m hi
    have := hfreshb m node hd
    omega
  refine ⟨s2, _, hrun, ?_, ?_, ?_, ?_, ?_, ?_, ?_, ?_, ?_, ?_, ?_⟩
  · rw [hs2def]
    show s1.fresh = s.fresh + 1
    rw [hfresh1, hs0fresh]
  · rw [hs2def]
    simp [Store.setNode, hblossom, htouching]
  · intro id hid1 hid2
    rw [hs2def]
    simp only [Store.setNode]
    rw [if_neg hid2, hoff1 id hid1, hs0data_ne id hid2]
  · intro m hm
    obtain ⟨node, hd0, hd1⟩ := hmem1 m hm
    rw [hdcirc m hm] at hd0
    refine ⟨node, hd0, ?_⟩
    rw [hs2def]
    simp only [Store.setNode]
    rw [if_neg (hmem_ne_fresh m hm), hd1]
  · show (self1.nodes ++ [none]).set self.nodes_length (some s.fresh) =
      self.nodes ++ [some s.fresh]
    rw [hnodes1, ← hlen_eq, set_append_last]
  · rfl
  · exact hsd1
  · exact hgp1
  · show self1.sum_grow_speed + 1 = self.sum_grow_speed - circleSpeedSum s nodes_circle + 1
    rw [hspeed1, circleSpeedSum_congr s s0 nodes_circle hdcirc]
  · rw [hs2def, sumDual_setNode_ne s1 s.fresh _ _ self.nodes hnofresh, hsumD1, hs0def]
    exact sumDual_alloc s blossom _ self.nodes hnofresh
  · rw [hs2def, sumSpeed_setNode_ne s1 s.fresh _ self.nodes hnofresh, hsumS1, hs0def,
      sumSpeed_alloc s blossom self.nodes hnofresh,
      circleSpeedSum_congr s s0 nodes_circle hdcirc]

/-- Full characterization of the member loop of `expand_blossom`: every member
    (Stay, parented to the blossom) is released to Grow with the parent cleared
    and the cache refreshed, and `sum_grow_speed` rises by the member count. -/
theorem expand_blossom_loop_spec (blossom_id : Nat) :
    ∀ (circle : List Nat) (s : Store) (self : DualModuleInterface),
    (∀ m ∈ circle, ∃ node, s.data m = some node ∧ node.parent_blossom = some blossom_id ∧
      node.grow_state = DualNodeGrowState.Stay ∧ self.nodes[node.index]? = some (some m)) →
    circle.Nodup → indexedNodes s self →
    ∃ (s' : Store) (self' : DualModuleInterface),
      expand_blossom_loop blossom_id circle s self = .ok (s', self') ∧
      self'.nodes = self.nodes ∧
      self'.nodes_length = self.nodes_length ∧
      self'.sum_dual_variables = self.sum_dual_variables ∧
      self'.dual_variable_global_progress = self.dual_variable_global_progress ∧
      self'.sum_grow_speed = self.sum_grow_speed + (circle.length : Weight) ∧
      s'.fresh = s.fresh ∧
      (∀ id, id ∉ circle → s'.data id = s.data id) ∧
      (∀ m ∈ circle, ∃ node, s.data m = some node ∧
        s'.data m = some { node with
          grow_state := DualNodeGrowState.Grow
          parent_blossom := none
          dual_variable_cache :=
            (node.get_dual_variable self.dual_variable_global_progress,
             self.dual_variable_global_progress) }) ∧
      sumDual s' self.dual_variable_global_progress self.nodes =
        sumDual s self.dual_variable_global_progress self.nodes ∧
      sumSpeed s' self.nodes = sumSpeed s self.nodes + (circle.length : Weight) := by
  intro circle
  induction circle with
  | nil =>
    intro s self _ _ _
    refine ⟨s, self, rfl, rfl, rfl, rfl, rfl, by simp, rfl, fun id _ => rfl, by simp, rfl,
      by simp⟩
  | cons id rest ih =>
    intro s self hmem hnodup hindexed
    obtain ⟨nd, hdata, hpar, hstay, hslot⟩ := hmem id (by simp)
    have hmemr : ∀ m ∈ rest, ∃ node, s.data m = some node ∧
        node.parent_blossom = some blossom_id ∧
        node.grow_state = DualNodeGrowState.Stay ∧
        self.nodes[node.index]? = some (some m) :=
      fun m hm => hmem m (by simp [hm])
    have huniq := indexed_unique_slot s self hindexed id nd hdata
    have hid_rest : id ∉ rest := (List.nodup_cons.1 hnodup).1
    set ndp : DualNode := { nd with parent_blossom := none } with hndp
    set refreshed : DualNode :=
      { nd with
        parent_blossom := none
        dual_variable_cache :=
          (nd.get_dual_variable self.dual_variable_global_progress,
           self.dual_variable_global_progress)
        grow_state := DualNodeGrowState.Grow } with hrefreshed
    set s1 : Store := s.setNode id ndp with hs1def
    set s2 : Store := s1.setNode id refreshed with hs2def
    set self1 : DualModuleInterface :=
      { self with sum_grow_speed :=
          self.sum_grow_speed - growSpeed DualNodeGrowState.Stay
            + growSpeed DualNodeGrowState.Grow } with hself1
    have hs1data : s1.data id = some ndp := by
      rw [hs1def]
      simp [Store.setNode]
    have hndp_get : ndp.get_dual_variable self.dual_variable_global_progress =
        nd.get_dual_variable self.dual_variable_global_progress := by
      rw [hndp]
      simp [DualNode.get_dual_variable]
    have hone : expand_blossom_loop blossom_id (id :: rest) s self =
        expand_blossom_loop blossom_id rest s2 self1 := by
      simp only [expand_blossom_loop, hdata, hpar, ne_eq, not_true_eq_false, if_false]
      rw [if_neg (show ¬(nd.grow_state ≠ DualNodeGrowState.Stay) from by simp [hstay])]
      rw [← hndp, ← hs1def]
      rw [set_grow_state_spec s1 self id DualNodeGrowState.Grow ndp hs1data (by rw [hndp])]
      rw [hs2def, hrefreshed, hself1, hndp]
      simp [hstay, growSpeed, DualNode.get_dual_variable]
    have hs2data : s2.data id = some refreshed := by
      rw [hs2def]
      simp [Store.setNode]
    have hs2fresh : s2.fresh = s.fresh := by
      rw [hs2def, hs1def]
      rfl
    have hs2data_ne : ∀ m, m ≠ id → s2.data m = s.data m := by
      intro m hm
      rw [hs2def, hs1def]
      simp [Store.setNode, hm]
    have hdatarest : ∀ m ∈ rest, s2.data m = s.data m :=
      fun m hm => hs2data_ne m (fun he => hid_rest (he ▸ hm))
    have hself1nodes : self1.nodes = self.nodes := by rw [hself1]
    have hself1len : self1.nodes_length = self.nodes_length := by rw [hself1]
    have hself1gp : self1.dual_variable_global_progress = self.dual_variable_global_progress := by
      rw [hself1]
    have hself1sd : self1.sum_dual_variables = self.sum_dual_variables := by rw [hself1]
    have hmem2 : ∀ m ∈ rest, ∃ node, s2.data m = some node ∧
        node.parent_blossom = some blossom_id ∧
        node.grow_state = DualNodeGrowState.Stay ∧
        self1.nodes[node.index]? = some (some m) := by
      intro m hm
      obtain ⟨node, hd, hp, hg, hs⟩ := hmemr m hm
      exact ⟨node, by rw [hdatarest m hm, hd], hp, hg, by rw [hself1nodes]; exact hs⟩
    have hindexed2 : indexedNodes s2 self1 := by
      intro j id' hj
      rw [hself1nodes] at hj
      by_cases hid : id' = id
      · subst hid
        have hj_eq : j = nd.index := huniq j hj
        refine ⟨refreshed, hs2data, ?_⟩
        simp [hrefreshed, hj_eq]
      · obtain ⟨node, hd, hi⟩ := hindexed j id' hj
        exact ⟨node, by rw [hs2data_ne id' hid, hd], hi⟩
    obtain ⟨s', self', hloop', hnodes', hlen', hsd', hgp', hspeed', hfresh', hoff', hmem',
      hsumD', hsumS'⟩ := ih s2 self1 hmem2 (List.nodup_cons.1 hnodup).2 hindexed2
    have hsumD2 : sumDual s2 self.dual_variable_global_progress self.nodes =
        sumDual s self.dual_variable_global_progress self.nodes := by
      have h1 : sumDual s1 self.dual_variable_global_progress self.nodes =
          sumDual s self.dual_variable_global_progress self.nodes := by
        rw [hs1def]
        exact sumDual_setNode s id nd ndp _ hdata hndp_get self.nodes
      have h2 : sumDual s2 self.dual_variable_global_progress self.nodes =
          sumDual s1 self.dual_variable_global_progress self.nodes := by
        rw [hs2def]
        refine sumDual_setNode s1 id ndp refreshed _ hs1data ?_ self.nodes
        rw [hrefreshed, hndp]
        simp [DualNode.get_dual_variable, hstay]
      rw [h2, h1]
    have hsumS2 : sumSpeed s2 self.nodes = sumSpeed s self.nodes + 1 := by
      have h1 : sumSpeed s1 self.nodes = sumSpeed s self.nodes := by
        rw [hs1def]
        refine sumSpeed_setNode_congr s id nd ndp hdata ?_ self.nodes
        rw [hndp]
      have h2 : sumSpeed s2 self.nodes =
          sumSpeed s1 self.nodes
            + (growSpeed refreshed.grow_state - growSpeed ndp.grow_state) := by
        rw [hs2def]
        exact sumSpeed_setNode s1 id ndp refreshed hs1data self.nodes nd.index
          hslot huniq
      rw [h2, h1, hrefreshed, hndp, hstay]
      simp [growSpeed]
    refine ⟨s', self', ?_, ?_, ?_, ?_, ?_, ?_, ?_, ?_, ?_, ?_, ?_⟩
    · rw [hone, hloop']
    · rw [hnodes', hself1nodes]
    · rw [hlen', hself1len]
    · rw [hsd', hself1sd]
    · rw [hgp', hself1gp]
    · rw [hspeed', hself1]
      simp [growSpeed]
      push_cast
      ring
    · rw [hfresh', hs2fresh]
    · intro id' hid'
      have h1 : id' ∉ rest := fun h => hid' (by simp [h])
      have h2 : id' ≠ id := fun h => hid' (by simp [h])
      rw [hoff' id' h1, hs2data_ne id' h2]
    · intro m hm
      rcases List.mem_cons.1 hm with hmeq | hmr
      · subst hmeq
        refine ⟨nd, hdata, ?_⟩
        rw [hoff' m hid_rest, hs2data, hrefreshed]
      · obtain ⟨node, hd2, hd'⟩ := hmem' m hmr
        rw [hdatarest m hmr] at hd2
        rw [hself1gp] at hd'
        exact ⟨node, hd2, hd'⟩
    · rw [hself1gp, hself1nodes] at hsumD'
      rw [hsumD', hsumD2]
    · rw [hself1nodes] at hsumS'
      rw [hsumS', hsumS2]
      simp only [List.length_cons]
      push_cast
      ring

/-- Full characterization of a successful `expand_blossom` on a tracked
    parent-free blossom with well-formed members: the slot is vacated (never
    reused), all members are released to Grow with cleared parents, and
    `sum_grow_speed` moves by the member count minus the blossom's own speed. -/
theorem expand_blossom_spec (s : Store) (self : DualModuleInterface) (blossom_id : Nat)
    (bnode : DualNode) (circ : List Nat) (touching : List (Nat × Nat))
    (hnode : s.data blossom_id = some bnode)
    (hclass : bnode.node_class = DualNodeClass.Blossom circ touching)
    (htracked : self.nodes[bnode.index]? = some (some blossom_id))
    (hmem : ∀ m ∈ circ, ∃ node, s.data m = some node ∧
      node.parent_blossom = some blossom_id ∧
      node.grow_state = DualNodeGrowState.Stay ∧
      self.nodes[node.index]? = some (some m))
    (hnodup : circ.Nodup)
    (hindexed : indexedNodes s self)
    (hb_not_mem : blossom_id ∉ circ) :
    ∃ (s' : Store) (self' : DualModuleInterface),
      expand_blossom s self blossom_id = .ok (s', self') ∧
      self'.nodes = self.nodes.set bnode.index none ∧
      self'.nodes_length = self.nodes_length ∧
      self'.sum_dual_variables = self.sum_dual_variables ∧
      self'.dual_variable_global_progress = self.dual_variable_global_progress ∧
      self'.sum_grow_speed =
        self.sum_grow_speed - growSpeed bnode.grow_state + (circ.length : Weight) ∧
      s'.fresh = s.fresh ∧
      (∀ id, id ∉ circ → s'.data id = s.data id) ∧
      (∀ m ∈ circ, ∃ node, s.data m = some node ∧
        s'.data m = some { node with
          grow_state := DualNodeGrowState.Grow
          parent_blossom := none
          dual_variable_cache :=
            (node.get_dual_variable self.dual_variable_global_progress,
             self.dual_variable_global_progress) }) ∧
      sumDual s' self.dual_variable_global_progress (self.nodes.set bnode.index none) =
        sumDual s self.dual_variable_global_progress self.nodes
          - bnode.get_dual_variable self.dual_variable_global_progress ∧
      sumSpeed s' (self.nodes.set bnode.index none) =
        sumSpeed s self.nodes - growSpeed bnode.grow_state + (circ.length : Weight) := by
  set self2 : DualModuleInterface :=
    { self with
      sum_grow_speed := self.sum_grow_speed - growSpeed bnode.grow_state
      nodes := self.nodes.set bnode.index none } with hself2
  have hmem2 : ∀ m ∈ circ, ∃ node, s.data m = some node ∧
      node.parent_blossom = some blossom_id ∧
      node.grow_state = DualNodeGrowState.Stay ∧
      self2.nodes[node.index]? = some (some m) := by
    intro m hm
    obtain ⟨node, hd, hp, hg, hs⟩ := hmem m hm
    refine ⟨node, hd, hp, hg, ?_⟩
    show (self.nodes.set bnode.index none)[node.index]? = some (some m)
    have hne : bnode.index ≠ node.index := by
      intro he
      rw [← he, htracked] at hs
      have : blossom_id = m := by
        injection hs with hs2
        injection hs2
      exact hb_not_mem (this ▸ hm)
    rw [List.getElem?_set_ne hne]
    exact hs
  have hindexed2 : indexedNodes s self2 := by
    intro j id hj
    have hj2 : (self.nodes.set bnode.index none)[j]? = some (some id) := hj
    by_cases hje : j = bnode.index
    · subst hje
      by_cases hlt : bnode.index < self.nodes.length
      · rw [List.getElem?_set_eq hlt] at hj2
        simp at hj2
      · rw [List.getElem?_eq_none (by simp [List.length_set]; omega)] at hj2
        cases hj2
    · rw [List.getElem?_set_ne (Ne.symm hje)] at hj2
      exact hindexed j id hj2
  obtain ⟨s', self', hloop, hnodes', hlen', hsd', hgp', hspeed', hfresh', hoff', hmem',
    hsumD', hsumS'⟩ := expand_blossom_loop_spec blossom_id circ s self2 hmem2 hnodup hindexed2
  refine ⟨s', self', ?_, hnodes', hlen', hsd', hgp', hspeed', hfresh', hoff', hmem', ?_, ?_⟩
  · simp only [expand_blossom, hnode, htracked]
    rw [if_neg (show ¬(blossom_id ≠ blossom_id) from fun h => h rfl)]
    simp only [hclass]
    have harith : (self.sum_grow_speed + match bnode.grow_state with
        | DualNodeGrowState.Grow => (-1 : Weight)
        | DualNodeGrowState.Shrink => 1
        | DualNodeGrowState.Stay => 0) = self.sum_grow_speed - growSpeed bnode.grow_state := by
      cases bnode.grow_state <;> simp [growSpeed] <;> ring
    rw [harith]
    exact hloop
  · have h1 : sumDual s self.dual_variable_global_progress (self.nodes.set bnode.index none) =
        sumDual s self.dual_variable_global_progress self.nodes
          - slotDual s self.dual_variable_global_progress (some blossom_id) :=
      sum_map_set_none (slotDual s self.dual_variable_global_progress) rfl self.nodes
        bnode.index (some blossom_id) htracked
    have h2 : slotDual s self.dual_variable_global_progress (some blossom_id) =
        bnode.get_dual_variable self.dual_variable_global_progress := by
      simp [slotDual, hnode]
    have h3 : sumDual s' self.dual_variable_global_progress
        (self.nodes.set bnode.index none) =
        sumDual s self.dual_variable_global_progress (self.nodes.set bnode.index none) :=
      hsumD'
    rw [h3, h1, h2]
  · have h1 : sumSpeed s (self.nodes.set bnode.index none) =
        sumSpeed s self.nodes - slotSpeed s (some blossom_id) :=
      sum_map_set_none (slotSpeed s) rfl self.nodes bnode.index (some blossom_id) htracked
    have h2 : slotSpeed s (some blossom_id) = growSpeed bnode.grow_state := by
      simp [slotSpeed, hnode]
    have h3 : sumSpeed s' (self.nodes.set bnode.index none) =
        sumSpeed s (self.nodes.set bnode.index none) + (circ.length : Weight) :=
      hsumS'
    rw [h3, h1, h2]

/-- Effect of the inner loop of `fuse` on the slot suffix `range' k m`: the
    remaining slots of `other` are appended in order, every node they track has
    its `index` shifted by `bias` and its dual-variable cache refreshed, and no
    other allocation moves. -/
theorem fuse_loop_spec (other : DualModuleInterface) (bias : Nat) :
    ∀ (m k : Nat) (s : Store) (self : DualModuleInterface),
      k + m = other.nodes_length →
      other.nodes.length = other.nodes_length →
      self.nodes.length = bias + k →
      self.nodes_length = bias + k →
      (∀ j, k ≤ j → j < other.nodes_length →
        ∀ id : Nat, other.nodes[j]? = some (some id) →
          ∃ node, s.data id = some node ∧ node.index = j) →
      ∃ (s' : Store) (self' : DualModuleInterface),
        fuse_loop other bias (List.range' k m) s self = .ok (s', self') ∧
        self'.nodes = self.nodes ++ other.nodes.drop k ∧
        self'.nodes_length = self.nodes_length + m ∧
        self'.sum_dual_variables = self.sum_dual_variables ∧
        self'.sum_grow_speed = self.sum_grow_speed ∧
        self'.dual_variable_global_progress = self.dual_variable_global_progress ∧
        s'.fresh = s.fresh ∧
        (∀ id : Nat, (∀ j, k ≤ j → other.nodes[j]? ≠ some (some id)) →
          s'.data id = s.data id) ∧
        (∀ j, k ≤ j → j < other.nodes_length → ∀ id : Nat,
          other.nodes[j]? = some (some id) → ∀ node, s.data id = some node →
            s'.data id = some
              { node with
                index := node.index + bias
                dual_variable_cache :=
                  (node.get_dual_variable other.dual_variable_global_progress,
                   self.dual_variable_global_progress) }) := by
  intro m
  induction m with
  | zero =>
    intro k s self hkm holen hslen hsnl hidx
    refine ⟨s, self, rfl, ?_, by simp, rfl, rfl, rfl, rfl, fun id _ => rfl, ?_⟩
    · rw [List.drop_eq_nil_of_le (by omega), List.append_nil]
    · intro j hkj hjlt
      omega
  | succ m ih =>
    intro k s self hkm holen hslen hsnl hidx
    have hk_lt : k < other.nodes.length := by omega
    obtain ⟨slot, hslot⟩ : ∃ slot, other.nodes[k]? = some slot :=
      ⟨other.nodes[k], List.getElem?_eq_getElem hk_lt⟩
    have hdropk : other.nodes.drop k = slot :: other.nodes.drop (k + 1) := by
      rw [List.drop_eq_getElem_cons hk_lt]
      congr 1
      have := List.getElem?_eq_getElem hk_lt
      rw [hslot] at this
      injection this with h1
      exact h1.symm
    have hcond : self.nodes.length ≤ self.nodes_length + 1 := by omega
    have hsetapp : ∀ x : Option Nat,
        (self.nodes ++ [none]).set (bias + k) x = self.nodes ++ [x] := by
      intro x
      rw [← hslen, set_append_last]
    rcases slot with _ | id
    · -- the slot is vacant: nothing to move, just append it
      set self2 : DualModuleInterface :=
        { self with
          nodes_length := self.nodes_length + 1
          nodes := self.nodes ++ [none] } with hself2
      obtain ⟨s', self', hrun, hnodes, hlen, hsd, hss, hgp, hfr, hoff, hmut⟩ :=
        ih (k + 1) s self2 (by omega) holen (by simp [hself2]; omega) (by simp [hself2]; omega)
          (fun j hkj hjlt id hid => hidx j (by omega) hjlt id hid)
      refine ⟨s', self', ?_, ?_, by rw [hlen]; simp [hself2]; omega, by rw [hsd],
        by rw [hss], by rw [hgp], hfr, ?_, ?_⟩
      · rw [List.range'_succ]
        simp only [fuse_loop, hslot]
        rw [if_pos hcond, hsetapp]
        exact hrun
      · rw [hnodes, hdropk]
        simp [hself2]
      · intro id hno
        exact hoff id (fun j hkj => hno j (by omega))
      · intro j hkj hjlt id hid node hnode
        have hjne : j ≠ k := by
          intro he
          rw [he, hslot] at hid
          cases hid
        exact hmut j (by omega) hjlt id hid node hnode
    · -- the slot tracks `id`: shift its index by `bias` and refresh its cache
      obtain ⟨node, hnode, hnidx⟩ := hidx k (le_refl k) (by omega) id hslot
      set node' : DualNode :=
        { node with
          index := node.index + bias
          dual_variable_cache :=
            (node.get_dual_variable other.dual_variable_global_progress,
             self.dual_variable_global_progress) } with hnode'
      set s1 : Store := s.setNode id node' with hs1
      have hs1_id : s1.data id = some node' := by simp [hs1, Store.setNode]
      have hs1_ne : ∀ id2, id2 ≠ id → s1.data id2 = s.data id2 := by
        intro id2 hne
        simp [hs1, Store.setNode, hne]
      have hlater_ne : ∀ j, k + 1 ≤ j → j < other.nodes_length →
          ∀ id2 : Nat, other.nodes[j]? = some (some id2) → id2 ≠ id := by
        intro j hkj hjlt id2 hid2 he
        subst he
        obtain ⟨node2, hnode2, hnidx2⟩ := hidx j (by omega) hjlt id2 hid2
        rw [hnode] at hnode2
        cases hnode2
        omega
      set self2 : DualModuleInterface :=
        { self with
          nodes_length := self.nodes_length + 1
          nodes := self.nodes ++ [some id] } with hself2
      obtain ⟨s', self', hrun, hnodes, hlen, hsd, hss, hgp, hfr, hoff, hmut⟩ :=
        ih (k + 1) s1 self2 (by omega) holen (by simp [hself2]; omega) (by simp [hself2]; omega)
          (fun j hkj hjlt id2 hid2 => by
            obtain ⟨node2, hnode2, hnidx2⟩ := hidx j (by omega) hjlt id2 hid2
            exact ⟨node2, by
              rw [hs1_ne id2 (hlater_ne j hkj hjlt id2 hid2), hnode2], hnidx2⟩)
      refine ⟨s', self', ?_, ?_, by rw [hlen]; simp [hself2]; omega, by rw [hsd],
        by rw [hss], by rw [hgp], by rw [hfr]; rfl, ?_, ?_⟩
      · rw [List.range'_succ]
        simp only [fuse_loop, hslot, hnode]
        rw [if_pos hcond, hsetapp]
        exact hrun
      · rw [hnodes, hdropk]
        simp [hself2]
      · intro id2 hno
        have hne : id2 ≠ id := by
          intro he
          exact hno k (le_refl k) (by rw [hslot, he])
        rw [hoff id2 (fun j hkj => hno j (by omega)), hs1_ne id2 hne]
      · intro j hkj hjlt id2 hid2 node2 hnode2
        by_cases hjk : j = k
        · subst hjk
          rw [hslot] at hid2
          have hid_eq : id2 = id := by
            injection hid2 with h1
            injection h1 with h2
            exact h2.symm
          subst hid_eq
          rw [hnode] at hnode2
          cases hnode2
          rw [hoff id2 (fun j hkj2 => by
            intro hcontra
            obtain ⟨node3, hnode3, hnidx3⟩ := hidx j (by omega) (by
              obtain ⟨hlt, _⟩ := List.getElem?_eq_some.1 hcontra
              omega) id2 hcontra
            rw [hnode] at hnode3
            cases hnode3
            omega)]
          exact hs1_id
        · have hne : id2 ≠ id := hlater_ne j (by omega) hjlt id2 hid2
          exact hmut j (by omega) hjlt id2 hid2 node2 (by rw [hs1_ne id2 hne, hnode2])

/-- One `fuse` pass over a single absorbed interface: the node array and the
    running totals are appended, each absorbed node's index is shifted by the
    absorbing interface's old `nodes_length`, and nothing else moves. -/
theorem fuse_single_spec (s : Store) (self other : DualModuleInterface)
    (hslen : self.nodes.length = self.nodes_length)
    (holen : other.nodes.length = other.nodes_length)
    (hindexed : indexedNodes s other) :
    ∃ (s' : Store) (self' : DualModuleInterface),
      fuse_single s self other = .ok (s', self') ∧
      self'.nodes = self.nodes ++ other.nodes ∧
      self'.nodes_length = self.nodes_length + other.nodes_length ∧
      self'.sum_dual_variables = self.sum_dual_variables + other.sum_dual_variables ∧
      self'.sum_grow_speed = self.sum_grow_speed + other.sum_grow_speed ∧
      self'.dual_variable_global_progress = self.dual_variable_global_progress ∧
      s'.fresh = s.fresh ∧
      (∀ id : Nat, ¬ trackedIn other id → s'.data id = s.data id) ∧
      (∀ (j : Nat) (id : Nat), other.nodes[j]? = some (some id) →
        ∀ node, s.data id = some node →
          s'.data id = some
            { node with
              index := node.index + self.nodes_length
              dual_variable_cache :=
                (node.get_dual_variable other.dual_variable_global_progress,
                 self.dual_variable_global_progress) }) := by
  obtain ⟨s', self', hrun, hnodes, hlen, hsd, hss, hgp, hfr, hoff, hmut⟩ :=
    fuse_loop_spec other self.nodes_length other.nodes_length 0 s self (by omega) holen
      (by omega) rfl (fun j _ hjlt id hid => hindexed j id hid)
  refine ⟨s', { self' with
      sum_dual_variables := self'.sum_dual_variables + other.sum_dual_variables
      sum_grow_speed := self'.sum_grow_speed + other.sum_grow_speed },
    ?_, ?_, by simp [hlen], by simp [hsd], by simp [hss], by simp [hgp], hfr, ?_, ?_⟩
  · simp only [fuse_single, List.range_eq_range', hrun]
  · rw [hnodes]
    simp
  · intro id hnt
    refine hoff id (fun j _ hid => hnt ⟨j, hid⟩)
  · intro j id hid node hnode
    have hjlt : j < other.nodes_length := by
      obtain ⟨hlt, _⟩ := List.getElem?_eq_some.1 hid
      omega
    exact hmut j (by omega) hjlt id hid node hnode

/-- Full `fuse left right`: both interfaces are appended in order; each of their
    nodes has its index rebased by the `nodes_length` the absorbing interface
    had at the moment that child was appended and its cache refreshed (which
    preserves its dual variable); the sums accumulate. -/
theorem fuse_spec (s : Store) (self left right : DualModuleInterface)
    (hslen : self.nodes.length = self.nodes_length)
    (hllen : left.nodes.length = left.nodes_length)
    (hrlen : right.nodes.length = right.nodes_length)
    (hindexedL : indexedNodes s left)
    (hindexedR : indexedNodes s right)
    (hdisj : ∀ id : Nat, trackedIn left id → trackedIn right id → False) :
    ∃ (s' : Store) (self' : DualModuleInterface),
      fuse s self left right = .ok (s', self') ∧
      self'.nodes = self.nodes ++ left.nodes ++ right.nodes ∧
      self'.nodes_length = self.nodes_length + left.nodes_length + right.nodes_length ∧
      self'.sum_dual_variables =
        self.sum_dual_variables + left.sum_dual_variables + right.sum_dual_variables ∧
      self'.sum_grow_speed =
        self.sum_grow_speed + left.sum_grow_speed + right.sum_grow_speed ∧
      self'.dual_variable_global_progress = self.dual_variable_global_progress ∧
      s'.fresh = s.fresh ∧
      (∀ id : Nat, ¬ trackedIn left id → ¬ trackedIn right id →
        s'.data id = s.data id) ∧
      (∀ (j : Nat) (id : Nat), left.nodes[j]? = some (some id) →
        ∀ node, s.data id = some node →
          s'.data id = some
            { node with
              index := node.index + self.nodes_length
              dual_variable_cache :=
                (node.get_dual_variable left.dual_variable_global_progress,
                 self.dual_variable_global_progress) }) ∧
      (∀ (j : Nat) (id : Nat), right.nodes[j]? = some (some id) →
        ∀ node, s.data id = some node →
          s'.data id = some
            { node with
              index := node.index + (self.nodes_length + left.nodes_length)
              dual_variable_cache :=
                (node.get_dual_variable right.dual_variable_global_progress,
                 self.dual_variable_global_progress) }) := by
  obtain ⟨s1, self1, hrun1, hnodes1, hlen1, hsd1, hss1, hgp1, hfr1, hoff1, hmut1⟩ :=
    fuse_single_spec s self left hslen hllen hindexedL
  have hslen1 : self1.nodes.length = self1.nodes_length := by
    rw [hnodes1, hlen1]
    simp
    omega
  have hindexedR1 : indexedNodes s1 right := by
    intro j id hid
    obtain ⟨node, hnode, hnidx⟩ := hindexedR j id hid
    refine ⟨node, ?_, hnidx⟩
    rw [hoff1 id (fun htl => hdisj id htl ⟨j, hid⟩), hnode]
  obtain ⟨s2, self2, hrun2, hnodes2, hlen2, hsd2, hss2, hgp2, hfr2, hoff2, hmut2⟩ :=
    fuse_single_spec s1 self1 right hslen1 hrlen hindexedR1
  refine ⟨s2, self2, ?_, ?_, ?_, ?_, ?_, ?_, ?_, ?_, ?_, ?_⟩
  · simp only [fuse, hrun1, hrun2]
  · rw [hnodes2, hnodes1]
  · rw [hlen2, hlen1]
  · rw [hsd2, hsd1]
  · rw [hss2, hss1]
  · rw [hgp2, hgp1]
  · rw [hfr2, hfr1]
  · intro id hnl hnr
    rw [hoff2 id hnr, hoff1 id hnl]
  · intro j id hid node hnode
    have hnr : ¬ trackedIn right id := fun htr => hdisj id ⟨j, hid⟩ htr
    rw [hoff2 id hnr]
    exact hmut1 j id hid node hnode
  · intro j id hid node hnode
    have hnl : ¬ trackedIn left id := fun htl => hdisj id htl ⟨j, hid⟩
    have hs1d : s1.data id = some node := by rw [hoff1 id hnl, hnode]
    have := hmut2 j id hid node hs1d
    rw [this, hlen1, hgp1]

/-- Slot-wise comparison of the dual sum across stores and progress values. -/
theorem sumDual_slotwise (s s' : Store) (gp gp' : Weight) (nodes : List (Option Nat))
    (h : ∀ m, some m ∈ nodes → slotDual s' gp' (some m) = slotDual s gp (some m)) :
    sumDual s' gp' nodes = sumDual s gp nodes := by
  apply sum_map_congr_mem
  intro o ho
  rcases o with _ | m
  · rfl
  · exact h m ho

/-- Slot-wise comparison of the speed sum across stores. -/
theorem sumSpeed_slotwise (s s' : Store) (nodes : List (Option Nat))
    (h : ∀ m, some m ∈ nodes → slotSpeed s' (some m) = slotSpeed s (some m)) :
    sumSpeed s' nodes = sumSpeed s nodes := by
  apply sum_map_congr_mem
  intro o ho
  rcases o with _ | m
  · rfl
  · exact h m ho

/-- Slots whose allocations are untouched contribute the same dual sum. -/
theorem sumDual_data_congr (s s' : Store) (gp : Weight) (nodes : List (Option Nat))
    (h : ∀ m, some m ∈ nodes → s'.data m = s.data m) :
    sumDual s' gp nodes = sumDual s gp nodes := by
  apply sumDual_slotwise
  intro m hm
  simp only [slotDual, h m hm]

/-- Slots whose allocations are untouched contribute the same speed sum. -/
theorem sumSpeed_data_congr (s s' : Store) (nodes : List (Option Nat))
    (h : ∀ m, some m ∈ nodes → s'.data m = s.data m) :
    sumSpeed s' nodes = sumSpeed s nodes := by
  apply sumSpeed_slotwise
  intro m hm
  simp only [slotSpeed, h m hm]

/-- In an indexed interface with bounded ids, no slot holds the fresh id. -/
theorem slots_ne_fresh (s : Store) (self : DualModuleInterface)
    (hindexed : indexedNodes s self)
    (hfreshb : ∀ id node, s.data id = some node → id < s.fresh) :
    ∀ m, some m ∈ self.nodes → m ≠ s.fresh := by
  intro m hm he
  obtain ⟨i, hi⟩ := List.mem_iff_getElem?.1 hm
  obtain ⟨node, hd, _⟩ := hindexed i m hi
  have := hfreshb m node hd
  omega

/-- The get-based member preconditions imply `circlePrecond`. -/
theorem circlePrecond_of_forall (s : Store) (self : DualModuleInterface) :
    ∀ (circle : List Nat) (i : Nat),
      (∀ (k : Nat) (hk : k < circle.length), ∃ node,
        s.data (circle.get ⟨k, hk⟩) = some node ∧
        check_ptr_belonging s self (circle.get ⟨k, hk⟩) = true ∧
        node.parent_blossom = none ∧
        node.grow_state = (if (i + k) % 2 = 0 then DualNodeGrowState.Grow
          else DualNodeGrowState.Shrink)) →
      circlePrecond s self i circle := by
  intro circle
  induction circle with
  | nil =>
    intro i _
    trivial
  | cons id rest ihc =>
    intro i h
    refine ⟨?_, ihc (i + 1) ?_⟩
    · have h0 := h 0 (by simp)
      simpa using h0
    · intro k hk
      have h' := h (k + 1) (by simpa using Nat.succ_lt_succ hk)
      have harith : i + (k + 1) = (i + 1) + k := by omega
      rw [harith] at h'
      exact h'

/-- The interface after `create_syndrome_node`, under the length invariant. -/
theorem create_syndrome_node_run (s : Store) (self : DualModuleInterface) (v : Nat)
    (hlen_eq : self.nodes.length = self.nodes_length) :
    (create_syndrome_node s self v).2.1 =
      { self with
        sum_grow_speed := self.sum_grow_speed + 1
        nodes_length := self.nodes_length + 1
        nodes := self.nodes ++ [some s.fresh] } := by
  simp only [create_syndrome_node, Store.alloc]
  rw [if_pos (show self.nodes.length < self.nodes_length + 1 from by omega)]
  rw [← hlen_eq, set_append_last]

/-- `create_syndrome_node` preserves the interface invariant. -/
theorem inv_create_syndrome (s : Store) (self : DualModuleInterface) (v : Nat)
    (hinv : InterfaceInv s self) :
    InterfaceInv (create_syndrome_node s self v).1 (create_syndrome_node s self v).2.1 := by
  obtain ⟨hlen, hfreshb, hindexed, hmembers, hsd, hss⟩ := hinv
  set node : DualNode :=
    { index := self.nodes_length
      node_class := DualNodeClass.SyndromeVertex v
      grow_state := DualNodeGrowState.Grow
      parent_blossom := none
      dual_variable_cache := (0, self.dual_variable_global_progress) } with hnode
  have hs' : (create_syndrome_node s self v).1 = (s.alloc node).1 := rfl
  rw [hs', create_syndrome_node_run s self v hlen]
  have hne := slots_ne_fresh s self hindexed hfreshb
  have hdata_fresh : (s.alloc node).1.data s.fresh = some node := by
    simp [Store.alloc]
  have hdata_ne : ∀ m, m ≠ s.fresh → (s.alloc node).1.data m = s.data m := by
    intro m hm
    simp [Store.alloc, hm]
  constructor
  · show (self.nodes ++ [some s.fresh]).length = self.nodes_length + 1
    simp [hlen]
  · intro id nd hd
    show id < s.fresh + 1
    by_cases hid : id = s.fresh
    · omega
    · rw [hdata_ne id hid] at hd
      have := hfreshb id nd hd
      omega
  · intro i id hi
    show ∃ nd, (s.alloc node).1.data id = some nd ∧ nd.index = i
    have hi' : (self.nodes ++ [some s.fresh])[i]? = some (some id) := hi
    by_cases hilt : i < self.nodes.length
    · rw [List.getElem?_append_left hilt] at hi'
      obtain ⟨nd, hd, hidx⟩ := hindexed i id hi'
      refine ⟨nd, ?_, hidx⟩
      rw [hdata_ne id (hne id (List.mem_iff_getElem?.2 ⟨i, hi'⟩)), hd]
    · have hieq : i = self.nodes.length := by
        by_contra hne2
        rw [List.getElem?_eq_none (by simp; omega)] at hi'
        cases hi'
      subst hieq
      rw [List.getElem?_concat_length] at hi'
      have hid : id = s.fresh := by
        injection hi' with h1
        injection h1 with h2
        exact h2.symm
      subst hid
      exact ⟨node, hdata_fresh, by rw [hnode]; simp [hlen]⟩
  · intro i b bnode circ touching hi hb hclass
    have hi' : (self.nodes ++ [some s.fresh])[i]? = some (some b) := hi
    by_cases hilt : i < self.nodes.length
    · rw [List.getElem?_append_left hilt] at hi'
      have hbne : b ≠ s.fresh := hne b (List.mem_iff_getElem?.2 ⟨i, hi'⟩)
      rw [hdata_ne b hbne] at hb
      obtain ⟨hnodup, hmem⟩ := hmembers i b bnode circ touching hi' hb hclass
      refine ⟨hnodup, ?_⟩
      intro m hm
      obtain ⟨mnode, hd, hp, hg, hslot⟩ := hmem m hm
      have hmne : m ≠ s.fresh := by
        intro he
        have := hfreshb m mnode hd
        omega
      refine ⟨mnode, by rw [hdata_ne m hmne, hd], hp, hg, ?_⟩
      show (self.nodes ++ [some s.fresh])[mnode.index]? = some (some m)
      have hmlt : mnode.index < self.nodes.length := by
        obtain ⟨hlt, _⟩ := List.getElem?_eq_some.1 hslot
        omega
      rw [List.getElem?_append_left hmlt]
      exact hslot
    · have hieq : i = self.nodes.length := by
        by_contra hne2
        rw [List.getElem?_eq_none (by simp; omega)] at hi'
        cases hi'
      subst hieq
      rw [List.getElem?_concat_length] at hi'
      have hid : b = s.fresh := by
        injection hi' with h1
        injection h1 with h2
        exact h2.symm
      subst hid
      rw [hdata_fresh] at hb
      injection hb with hb2
      subst hb2
      rw [hnode] at hclass
      cases hclass
  · show self.sum_dual_variables =
      sumDual (s.alloc node).1 self.dual_variable_global_progress
        (self.nodes ++ [some s.fresh])
    rw [sumDual_append, sumDual_alloc s node _ self.nodes hne]
    have hslot : sumDual (s.alloc node).1 self.dual_variable_global_progress
        [some s.fresh] = 0 := by
      simp [sumDual, slotDual, hdata_fresh, hnode, DualNode.get_dual_variable]
    rw [hslot, ← hsd, add_zero]
  · show self.sum_grow_speed + 1 =
      sumSpeed (s.alloc node).1 (self.nodes ++ [some s.fresh])
    rw [sumSpeed_append, sumSpeed_alloc s node self.nodes hne]
    have hslot : sumSpeed (s.alloc node).1 [some s.fresh] = 1 := by
      simp [sumSpeed, slotSpeed, hdata_fresh, hnode, growSpeed]
    rw [hslot, ← hss]

/-- `set_grow_state` on a belonging node preserves the interface invariant. -/
theorem inv_set_grow (s : Store) (self : DualModuleInterface) (id : Nat)
    (gs : DualNodeGrowState) (s' : Store) (self' : DualModuleInterface)
    (hbelong : check_ptr_belonging s self id = true)
    (h : set_grow_state s self id gs = .ok (s', self'))
    (hinv : InterfaceInv s self) :
    InterfaceInv s' self' := by
  obtain ⟨hlen, hfreshb, hindexed, hmembers, hsd, hss⟩ := hinv
  rcases hdata : s.data id with _ | node
  · simp [set_grow_state, hdata] at h
  rcases hpar : node.parent_blossom with _ | pb
  case some => simp [set_grow_state, hdata, hpar] at h
  case none =>
  rw [set_grow_state_spec s self id gs node hdata hpar] at h
  injection h with h1
  injection h1 with hs' hself'
  subst hs'
  subst hself'
  set node' : DualNode :=
    { node with
      dual_variable_cache := (node.get_dual_variable self.dual_variable_global_progress,
        self.dual_variable_global_progress)
      grow_state := gs } with hnode'
  have hdata' : (s.setNode id node').data id = some node' := by simp [Store.setNode]
  have hdata_ne : ∀ m, m ≠ id → (s.setNode id node').data m = s.data m := by
    intro m hm
    simp [Store.setNode, hm]
  obtain ⟨hidx_lt, hslot⟩ := check_ptr_belonging_spec s self id node hdata hbelong
  have huniq := indexed_unique_slot s self hindexed id node hdata
  constructor
  · exact hlen
  · intro i nd hd
    show i < s.fresh
    by_cases hi : i = id
    · subst hi
      exact hfreshb i node hdata
    · rw [hdata_ne i hi] at hd
      exact hfreshb i nd hd
  · intro j jd hj
    obtain ⟨nd2, hd2, hidx2⟩ := hindexed j jd hj
    by_cases hjd : jd = id
    · subst hjd
      rw [hdata] at hd2
      injection hd2 with hd2e
      subst hd2e
      exact ⟨node', hdata', hidx2⟩
    · exact ⟨nd2, by rw [hdata_ne jd hjd, hd2], hidx2⟩
  · intro i b bnode' circ touching hi hb hclass
    by_cases hbid : b = id
    · subst hbid
      rw [hdata'] at hb
      injection hb with hbe
      subst hbe
      have hclass2 : node.node_class = DualNodeClass.Blossom circ touching := hclass
      obtain ⟨hnodup, hmem⟩ := hmembers i b node circ touching hi hdata hclass2
      refine ⟨hnodup, ?_⟩
      intro m hm
      obtain ⟨mnode, hd, hp, hg, hms⟩ := hmem m hm
      have hmne : m ≠ b := by
        intro he
        rw [he, hdata] at hd
        injection hd with hde
        rw [hde] at hpar
        rw [hpar] at hp
        cases hp
      exact ⟨mnode, by rw [hdata_ne m hmne, hd], hp, hg, hms⟩
    · rw [hdata_ne b hbid] at hb
      obtain ⟨hnodup, hmem⟩ := hmembers i b bnode' circ touching hi hb hclass
      refine ⟨hnodup, ?_⟩
      intro m hm
      obtain ⟨mnode, hd, hp, hg, hms⟩ := hmem m hm
      have hmne : m ≠ id := by
        intro he
        rw [he, hdata] at hd
        injection hd with hde
        rw [hde] at hpar
        rw [hpar] at hp
        cases hp
      exact ⟨mnode, by rw [hdata_ne m hmne, hd], hp, hg, hms⟩
  · show self.sum_dual_variables =
      sumDual (s.setNode id node') self.dual_variable_global_progress self.nodes
    rw [sumDual_setNode s id node node' _ hdata
      (get_dual_variable_refresh node self.dual_variable_global_progress gs)]
    exact hsd
  · show self.sum_grow_speed - growSpeed node.grow_state + growSpeed gs =
      sumSpeed (s.setNode id node') self.nodes
    rw [sumSpeed_setNode s id node node' hdata self.nodes node.index hslot huniq]
    rw [← hss]
    have : node'.grow_state = gs := rfl
    rw [this]
    ring

/-- The circle preconditions, per member: allocated, belonging, parent-free and
    not in the Stay state (it alternates Grow/Shrink). -/
theorem circlePrecond_mem (s : Store) (self : DualModuleInterface) :
    ∀ (circle : List Nat) (i : Nat), circlePrecond s self i circle →
      ∀ m ∈ circle, ∃ node, s.data m = some node ∧
        check_ptr_belonging s self m = true ∧ node.parent_blossom = none ∧
        node.grow_state ≠ DualNodeGrowState.Stay := by
  intro circle
  induction circle with
  | nil =>
    intro i _ m hm
    simp at hm
  | cons id rest ihc =>
    intro i hpre m hm
    obtain ⟨⟨node, hdata, hbelong, hpar, hstate⟩, hrest⟩ := hpre
    rcases List.mem_cons.1 hm with hmeq | hmr
    · subst hmeq
      refine ⟨node, hdata, hbelong, hpar, ?_⟩
      rw [hstate]
      by_cases hi : i % 2 = 0 <;> simp [hi]
    · exact ihc (i + 1) hrest m hmr

/-- `create_blossom` with satisfied member preconditions preserves the
    interface invariant. -/
theorem inv_create_blossom (s : Store) (self : DualModuleInterface)
    (nodes_circle : List Nat) (touching_children : List (Nat × Nat))
    (s' : Store) (self' : DualModuleInterface) (blossom_id : Nat)
    (hnodup : nodes_circle.Nodup)
    (hpre : circlePrecond s self 0 nodes_circle)
    (h : create_blossom s self nodes_circle touching_children = .ok (s', self', blossom_id))
    (hinv : InterfaceInv s self) :
    InterfaceInv s' self' := by
  obtain ⟨hlen, hfreshb, hindexed, hmembers, hsd, hss⟩ := hinv
  have htlen : touching_children.length = 0 ∨
      touching_children.length = nodes_circle.length := by
    by_cases h0 : touching_children.length = 0
    · exact Or.inl h0
    · right
      by_contra hne
      simp only [create_blossom] at h
      rw [if_neg h0] at h
      rw [if_pos hne] at h
      cases h
  have hmem_facts := circlePrecond_mem s self nodes_circle 0 hpre
  obtain ⟨s2, self2, hrun, hfresh', hbdata, hoff, hmem1, hnodes', hlen', hsd', hgp',
    hspeed', hsumD, hsumS⟩ :=
    create_blossom_spec s self nodes_circle touching_children hlen hpre hnodup hindexed
      hfreshb htlen
  rw [hrun] at h
  injection h with h1
  injection h1 with hs2 h2
  injection h2 with hself2 hbid
  subst hs2
  subst hself2
  subst hbid
  constructor
  · rw [hnodes', hlen']
    simp [hlen]
  · intro i nd hd
    show i < s2.fresh
    rw [hfresh']
    by_cases hif : i = s.fresh
    · omega
    · by_cases himem : i ∈ nodes_circle
      · obtain ⟨nd0, hd0, _⟩ := hmem1 i himem
        have := hfreshb i nd0 hd0
        omega
      · rw [hoff i himem hif] at hd
        have := hfreshb i nd hd
        omega
  · intro j jd hj
    rw [hnodes'] at hj
    by_cases hjlt : j < self.nodes.length
    · rw [List.getElem?_append_left hjlt] at hj
      obtain ⟨nd0, hd0, hi0⟩ := hindexed j jd hj
      by_cases hmemb : jd ∈ nodes_circle
      · obtain ⟨nd, hd, hd1⟩ := hmem1 jd hmemb
        rw [hd] at hd0
        cases hd0
        exact ⟨_, hd1, hi0⟩
      · have hne2 : jd ≠ s.fresh := by
          intro he
          have := hfreshb jd nd0 hd0
          omega
        exact ⟨nd0, by rw [hoff jd hmemb hne2, hd0], hi0⟩
    · have hj_eq : j = self.nodes.length := by
        by_contra hne2
        rw [List.getElem?_eq_none (by simp; omega)] at hj
        cases hj
      subst hj_eq
      rw [List.getElem?_concat_length] at hj
      have hjd : jd = s.fresh := by
        injection hj with h1
        injection h1 with h2
        exact h2.symm
      subst hjd
      exact ⟨_, hbdata, by simp [hlen]⟩
  · intro i b bnode' circ touching hi hb hclass
    rw [hnodes'] at hi
    have hmem_then : (∀ m ∈ circ, ∃ mnode, s.data m = some mnode ∧
        mnode.parent_blossom = some b ∧ mnode.grow_state = DualNodeGrowState.Stay ∧
        self.nodes[mnode.index]? = some (some m)) →
        ∀ m ∈ circ, ∃ mnode, s2.data m = some mnode ∧
        mnode.parent_blossom = some b ∧ mnode.grow_state = DualNodeGrowState.Stay ∧
        (self.nodes ++ [some s.fresh])[mnode.index]? = some (some m) := by
      intro hmem m hm
      obtain ⟨mnode, hd, hp, hg, hms⟩ := hmem m hm
      have hm_not_circ : m ∉ nodes_circle := by
        intro hmc
        obtain ⟨mnode2, hd2, _, hp2, _⟩ := hmem_facts m hmc
        rw [hd] at hd2
        cases hd2
        rw [hp2] at hp
        cases hp
      have hm_ne_fresh : m ≠ s.fresh := by
        intro he
        have := hfreshb m mnode hd
        omega
      refine ⟨mnode, by rw [hoff m hm_not_circ hm_ne_fresh, hd], hp, hg, ?_⟩
      have hmlt : mnode.index < self.nodes.length := by
        obtain ⟨hlt, _⟩ := List.getElem?_eq_some.1 hms
        omega
      rw [List.getElem?_append_left hmlt]
      exact hms
    by_cases hilt : i < self.nodes.length
    · rw [List.getElem?_append_left hilt] at hi
      have hbne : b ≠ s.fresh := slots_ne_fresh s self hindexed hfreshb b
        (List.mem_iff_getElem?.2 ⟨i, hi⟩)
      by_cases hbc : b ∈ nodes_circle
      · obtain ⟨nd, hd, hd1⟩ := hmem1 b hbc
        rw [hd1] at hb
        injection hb with hbe
        subst hbe
        have hcl2 : nd.node_class = DualNodeClass.Blossom circ touching := hclass
        obtain ⟨hnodup2, hmem⟩ := hmembers i b nd circ touching hi hd hcl2
        refine ⟨hnodup2, ?_⟩
        rw [hnodes']
        exact hmem_then hmem
      · rw [hoff b hbc hbne] at hb
        obtain ⟨hnodup2, hmem⟩ := hmembers i b bnode' circ touching hi hb hclass
        refine ⟨hnodup2, ?_⟩
        rw [hnodes']
        exact hmem_then hmem
    · have hi_eq : i = self.nodes.length := by
        by_contra hne2
        rw [List.getElem?_eq_none (by simp; omega)] at hi
        cases hi
      subst hi_eq
      rw [List.getElem?_concat_length] at hi
      have hbf : b = s.fresh := by
        injection hi with h1
        injection h1 with h2
        exact h2.symm
      subst hbf
      rw [hbdata] at hb
      injection hb with hbe
      subst hbe
      have hcirc_eq : circ = nodes_circle ∧ touching =
          (if touching_children.length = 0 then nodes_circle.map (fun c => (c, c))
           else touching_children) := by
        have h1 : DualNodeClass.Blossom nodes_circle
            (if touching_children.length = 0 then nodes_circle.map (fun c => (c, c))
             else touching_children) = DualNodeClass.Blossom circ touching := hclass
        injection h1 with hc ht
        exact ⟨hc.symm, ht.symm⟩
      obtain ⟨hcirc_eq1, _⟩ := hcirc_eq
      subst hcirc_eq1
      refine ⟨hnodup, ?_⟩
      intro m hm
      obtain ⟨nd, hd, hd1⟩ := hmem1 m hm
      obtain ⟨nd2, hd2, hb2, _, _⟩ := hmem_facts m hm
      rw [hd] at hd2
      cases hd2
      obtain ⟨hidx_lt, hms⟩ := check_ptr_belonging_spec s self m nd hd hb2
      refine ⟨_, hd1, rfl, rfl, ?_⟩
      rw [hnodes']
      show (self.nodes ++ [some s.fresh])[nd.index]? = some (some m)
      rw [List.getElem?_append_left (by omega : nd.index < self.nodes.length)]
      exact hms
  · show self2.sum_dual_variables =
      sumDual s2 self2.dual_variable_global_progress self2.nodes
    rw [hsd', hgp', hnodes', sumDual_append, hsumD]
    have hsingle : sumDual s2 self.dual_variable_global_progress [some s.fresh] = 0 := by
      simp [sumDual, slotDual, hbdata, DualNode.get_dual_variable]
    rw [hsingle, ← hsd, add_zero]
  · show self2.sum_grow_speed = sumSpeed s2 self2.nodes
    rw [hspeed', hnodes', sumSpeed_append, hsumS]
    have hsingle : sumSpeed s2 [some s.fresh] = 1 := by
      simp [sumSpeed, slotSpeed, hbdata, growSpeed]
    rw [hsingle, ← hss]

/-- `expand_blossom` of a zero-dual, parentless, tracked blossom preserves the
    interface invariant. -/
theorem inv_expand_blossom (s : Store) (self : DualModuleInterface) (blossom_id : Nat)
    (bnode : DualNode) (circ : List Nat) (touching : List (Nat × Nat))
    (s' : Store) (self' : DualModuleInterface)
    (hnode : s.data blossom_id = some bnode)
    (hclass : bnode.node_class = DualNodeClass.Blossom circ touching)
    (htracked : self.nodes[bnode.index]? = some (some blossom_id))
    (hzero : bnode.get_dual_variable self.dual_variable_global_progress = 0)
    (hparent : bnode.parent_blossom = none)
    (h : expand_blossom s self blossom_id = .ok (s', self'))
    (hinv : InterfaceInv s self) :
    InterfaceInv s' self' := by
  obtain ⟨hlen, hfreshb, hindexed, hmembers, hsd, hss⟩ := hinv
  obtain ⟨hnodup, hmem⟩ :=
    hmembers bnode.index blossom_id bnode circ touching htracked hnode hclass
  have hb_not_mem : blossom_id ∉ circ := by
    intro hbm
    obtain ⟨mnode, hd, hp, _, _⟩ := hmem blossom_id hbm
    rw [hnode] at hd
    injection hd with hde
    rw [← hde] at hp
    rw [hparent] at hp
    cases hp
  obtain ⟨s2, self2, hrun, hnodes', hlen', hsd', hgp', hspeed', hfr, hoff, hmem',
    hsumD, hsumS⟩ :=
    expand_blossom_spec s self blossom_id bnode circ touching hnode hclass htracked hmem
      hnodup hindexed hb_not_mem
  rw [hrun] at h
  injection h with h1
  injection h1 with hs2 hself2
  subst hs2
  subst hself2
  have hblt : bnode.index < self.nodes.length := by
    obtain ⟨hlt, _⟩ := List.getElem?_eq_some.1 htracked
    omega
  constructor
  · rw [hnodes', hlen']
    simp [hlen]
  · intro i nd hd
    show i < s2.fresh
    rw [hfr]
    by_cases hic : i ∈ circ
    · obtain ⟨node0, hd0, _⟩ := hmem' i hic
      exact hfreshb i node0 hd0
    · rw [hoff i hic] at hd
      exact hfreshb i nd hd
  · intro j jd hj
    rw [hnodes'] at hj
    by_cases hjb : bnode.index = j
    · exfalso
      rw [← hjb, List.getElem?_set_self hblt] at hj
      injection hj with h2
      exact Option.noConfusion h2
    · rw [List.getElem?_set_ne hjb] at hj
      obtain ⟨nd0, hd0, hi0⟩ := hindexed j jd hj
      by_cases hjc : jd ∈ circ
      · obtain ⟨nd1, hd1, hd2⟩ := hmem' jd hjc
        rw [hd1] at hd0
        injection hd0 with hde
        subst hde
        exact ⟨_, hd2, hi0⟩
      · exact ⟨nd0, by rw [hoff jd hjc, hd0], hi0⟩
  · intro i b bnode2 circ2 touching2 hi hb hclass2
    rw [hnodes'] at hi
    by_cases hib : bnode.index = i
    · exfalso
      rw [← hib, List.getElem?_set_self hblt] at hi
      injection hi with h2
      exact Option.noConfusion h2
    · rw [List.getElem?_set_ne hib] at hi
      have hbne : b ≠ blossom_id := by
        intro he
        obtain ⟨nd0, hd0, hi0⟩ := hindexed i b hi
        rw [he, hnode] at hd0
        injection hd0 with hde
        rw [← hde] at hi0
        exact hib hi0
      by_cases hbc : b ∈ circ
      · obtain ⟨nd1, hd1, hd2⟩ := hmem' b hbc
        rw [hd2] at hb
        injection hb with hbe
        subst hbe
        have hcl2 : nd1.node_class = DualNodeClass.Blossom circ2 touching2 := hclass2
        obtain ⟨hnodup2, hmem2⟩ := hmembers i b nd1 circ2 touching2 hi hd1 hcl2
        refine ⟨hnodup2, ?_⟩
        rw [hnodes']
        intro m hm
        obtain ⟨mnode, hd, hp, hg, hms⟩ := hmem2 m hm
        have hmc : m ∉ circ := by
          intro hmc2
          obtain ⟨mnode2, hd3, hp3, _, _⟩ := hmem m hmc2
          rw [hd] at hd3
          injection hd3 with hde3
          subst hde3
          rw [hp] at hp3
          injection hp3 with hpe
          exact hbne hpe
        have hmb_ne : bnode.index ≠ mnode.index := by
          intro he
          rw [← he, htracked] at hms
          injection hms with h2
          injection h2 with h3
          rw [← h3] at hd
          rw [hnode] at hd
          injection hd with hde4
          rw [← hde4] at hp
          rw [hparent] at hp
          cases hp
        refine ⟨mnode, by rw [hoff m hmc, hd], hp, hg, ?_⟩
        rw [List.getElem?_set_ne hmb_ne]
        exact hms
      · rw [hoff b hbc] at hb
        obtain ⟨hnodup2, hmem2⟩ := hmembers i b bnode2 circ2 touching2 hi hb hclass2
        refine ⟨hnodup2, ?_⟩
        rw [hnodes']
        intro m hm
        obtain ⟨mnode, hd, hp, hg, hms⟩ := hmem2 m hm
        have hmc : m ∉ circ := by
          intro hmc2
          obtain ⟨mnode2, hd3, hp3, _, _⟩ := hmem m hmc2
          rw [hd] at hd3
          injection hd3 with hde3
          subst hde3
          rw [hp] at hp3
          injection hp3 with hpe
          exact hbne hpe
        have hmb_ne : bnode.index ≠ mnode.index := by
          intro he
          rw [← he, htracked] at hms
          injection hms with h2
          injection h2 with h3
          rw [← h3] at hd
          rw [hnode] at hd
          injection hd with hde4
          rw [← hde4] at hp
          rw [hparent] at hp
          cases hp
        refine ⟨mnode, by rw [hoff m hmc, hd], hp, hg, ?_⟩
        rw [List.getElem?_set_ne hmb_ne]
        exact hms
  · show self2.sum_dual_variables =
      sumDual s2 self2.dual_variable_global_progress self2.nodes
    rw [hsd', hgp', hnodes', hsumD, hzero, ← hsd, sub_zero]
  · show self2.sum_grow_speed = sumSpeed s2 self2.nodes
    rw [hspeed', hnodes', hsumS, ← hss]

/-- A node is tracked exactly when its id occurs in the node array. -/
theorem trackedIn_iff_mem (self : DualModuleInterface) (id : Nat) :
    trackedIn self id ↔ some id ∈ self.nodes := by
  unfold trackedIn
  exact (List.mem_iff_getElem?).symm

/-- `grow` preserves the interface invariant. -/
theorem inv_grow (s : Store) (self : DualModuleInterface) (length : Weight)
    (hinv : InterfaceInv s self) :
    InterfaceInv s (grow self length) := by
  obtain ⟨hlen, hfreshb, hindexed, hmembers, hsd, hss⟩ := hinv
  constructor
  · exact hlen
  · exact hfreshb
  · exact hindexed
  · exact hmembers
  · show self.sum_dual_variables + length * self.sum_grow_speed =
      sumDual s (self.dual_variable_global_progress + length) self.nodes
    rw [sumDual_shift, ← hsd, ← hss]
  · exact hss

/-- `fuse` of invariant, pairwise-disjoint interfaces preserves the invariant. -/
theorem inv_fuse (s : Store) (self left right : DualModuleInterface)
    (s' : Store) (self' : DualModuleInterface)
    (hleft : InterfaceInv s left) (hright : InterfaceInv s right)
    (hdisjoint_lr : ∀ id, trackedIn left id → trackedIn right id → False)
    (hdisjoint_sl : ∀ id, trackedIn self id → trackedIn left id → False)
    (hdisjoint_sr : ∀ id, trackedIn self id → trackedIn right id → False)
    (h : fuse s self left right = .ok (s', self'))
    (hinv : InterfaceInv s self) :
    InterfaceInv s' self' := by
  obtain ⟨hlen, hfreshb, hindexed, hmembers, hsd, hss⟩ := hinv
  obtain ⟨hlenL, hfreshbL, hindexedL, hmembersL, hsdL, hssL⟩ := hleft
  obtain ⟨hlenR, hfreshbR, hindexedR, hmembersR, hsdR, hssR⟩ := hright
  obtain ⟨s2, self2, hrun, hnodes', hlen', hsd', hss', hgp', hfr, hoff, hmutL, hmutR⟩ :=
    fuse_spec s self left right hlen hlenL hlenR hindexedL hindexedR hdisjoint_lr
  rw [hrun] at h
  injection h with h1
  injection h1 with hs2 hself2
  subst hs2
  subst hself2
  constructor
  · rw [hnodes', hlen']
    simp
    omega
  · intro i nd hd
    show i < s2.fresh
    rw [hfr]
    by_cases htl : trackedIn left i
    · obtain ⟨j, hj⟩ := htl
      obtain ⟨nd0, hd0, _⟩ := hindexedL j i hj
      exact hfreshbL i nd0 hd0
    by_cases htr : trackedIn right i
    · obtain ⟨j, hj⟩ := htr
      obtain ⟨nd0, hd0, _⟩ := hindexedR j i hj
      exact hfreshbR i nd0 hd0
    · rw [hoff i htl htr] at hd
      exact hfreshb i nd hd
  · intro j jd hj
    rw [hnodes'] at hj
    by_cases hjAB : j < (self.nodes ++ left.nodes).length
    · rw [List.getElem?_append_left hjAB] at hj
      by_cases hjA : j < self.nodes.length
      · rw [List.getElem?_append_left hjA] at hj
        obtain ⟨nd, hd, hidx⟩ := hindexed j jd hj
        have hnt_l : ¬ trackedIn left jd := fun htl => hdisjoint_sl jd ⟨j, hj⟩ htl
        have hnt_r : ¬ trackedIn right jd := fun htr => hdisjoint_sr jd ⟨j, hj⟩ htr
        exact ⟨nd, by rw [hoff jd hnt_l hnt_r, hd], hidx⟩
      · rw [List.getElem?_append_right (by omega)] at hj
        obtain ⟨nd, hd, hidx⟩ := hindexedL (j - self.nodes.length) jd hj
        have hm' := hmutL (j - self.nodes.length) jd hj nd hd
        refine ⟨_, hm', ?_⟩
        show nd.index + self.nodes_length = j
        omega
    · rw [List.getElem?_append_right (by omega)] at hj
      have hlenAB : (self.nodes ++ left.nodes).length =
          self.nodes.length + left.nodes.length := by simp
      obtain ⟨nd, hd, hidx⟩ := hindexedR (j - (self.nodes ++ left.nodes).length) jd hj
      have hm' := hmutR (j - (self.nodes ++ left.nodes).length) jd hj nd hd
      refine ⟨_, hm', ?_⟩
      show nd.index + (self.nodes_length + left.nodes_length) = j
      omega
  · intro i b bnode2 circ2 touching2 hi hb hclass2
    rw [hnodes'] at hi
    by_cases hiAB : i < (self.nodes ++ left.nodes).length
    · rw [List.getElem?_append_left hiAB] at hi
      by_cases hiA : i < self.nodes.length
      · rw [List.getElem?_append_left hiA] at hi
        have hnt_l : ¬ trackedIn left b := fun htl => hdisjoint_sl b ⟨i, hi⟩ htl
        have hnt_r : ¬ trackedIn right b := fun htr => hdisjoint_sr b ⟨i, hi⟩ htr
        rw [hoff b hnt_l hnt_r] at hb
        obtain ⟨hnodup2, hmem2⟩ := hmembers i b bnode2 circ2 touching2 hi hb hclass2
        refine ⟨hnodup2, ?_⟩
        rw [hnodes']
        intro m hm
        obtain ⟨mnode, hd, hp, hg, hms⟩ := hmem2 m hm
        have hmnt_l : ¬ trackedIn left m :=
          fun htl => hdisjoint_sl m ⟨mnode.index, hms⟩ htl
        have hmnt_r : ¬ trackedIn right m :=
          fun htr => hdisjoint_sr m ⟨mnode.index, hms⟩ htr
        refine ⟨mnode, by rw [hoff m hmnt_l hmnt_r, hd], hp, hg, ?_⟩
        have hmlt : mnode.index < self.nodes.length := by
          obtain ⟨hlt, _⟩ := List.getElem?_eq_some.1 hms
          omega
        rw [List.getElem?_append_left (by
          simp
          omega), List.getElem?_append_left hmlt]
        exact hms
      · rw [List.getElem?_append_right (by omega)] at hi
        obtain ⟨bnodeL, hdL, hidxL⟩ := hindexedL (i - self.nodes.length) b hi
        have hmb := hmutL (i - self.nodes.length) b hi bnodeL hdL
        rw [hmb] at hb
        injection hb with hbe
        subst hbe
        have hclL : bnodeL.node_class = DualNodeClass.Blossom circ2 touching2 := hclass2
        obtain ⟨hnodup2, hmem2⟩ :=
          hmembersL (i - self.nodes.length) b bnodeL circ2 touching2 hi hdL hclL
        refine ⟨hnodup2, ?_⟩
        rw [hnodes']
        intro m hm
        obtain ⟨mnode, hd, hp, hg, hms⟩ := hmem2 m hm
        have hm' := hmutL mnode.index m hms mnode hd
        refine ⟨_, hm', hp, hg, ?_⟩
        show (self.nodes ++ left.nodes ++ right.nodes)[mnode.index + self.nodes_length]? =
          some (some m)
        have hmlt : mnode.index < left.nodes.length := by
          obtain ⟨hlt, _⟩ := List.getElem?_eq_some.1 hms
          omega
        rw [List.getElem?_append_left (by
          simp
          omega)]
        rw [List.getElem?_append_right (by omega)]
        rw [show mnode.index + self.nodes_length - self.nodes.length = mnode.index from
          by omega]
        exact hms
    · rw [List.getElem?_append_right (by omega)] at hi
      have hlenAB : (self.nodes ++ left.nodes).length =
          self.nodes.length + left.nodes.length := by simp
      obtain ⟨bnodeR, hdR, hidxR⟩ := hindexedR (i - (self.nodes ++ left.nodes).length) b hi
      have hmb := hmutR (i - (self.nodes ++ left.nodes).length) b hi bnodeR hdR
      rw [hmb] at hb
      injection hb with hbe
      subst hbe
      have hclR : bnodeR.node_class = DualNodeClass.Blossom circ2 touching2 := hclass2
      obtain ⟨hnodup2, hmem2⟩ :=
        hmembersR (i - (self.nodes ++ left.nodes).length) b bnodeR circ2 touching2 hi hdR hclR
      refine ⟨hnodup2, ?_⟩
      rw [hnodes']
      intro m hm
      obtain ⟨mnode, hd, hp, hg, hms⟩ := hmem2 m hm
      have hm' := hmutR mnode.index m hms mnode hd
      refine ⟨_, hm', hp, hg, ?_⟩
      show (self.nodes ++ left.nodes ++
          right.nodes)[mnode.index + (self.nodes_length + left.nodes_length)]? =
        some (some m)
      have hmlt : mnode.index < right.nodes.length := by
        obtain ⟨hlt, _⟩ := List.getElem?_eq_some.1 hms
        omega
      rw [List.getElem?_append_right (by
        simp
        omega)]
      rw [show mnode.index + (self.nodes_length + left.nodes_length) -
          (self.nodes ++ left.nodes).length = mnode.index from by
        simp
        omega]
      exact hms
  · show self2.sum_dual_variables =
      sumDual s2 self2.dual_variable_global_progress self2.nodes
    rw [hsd', hgp', hnodes', sumDual_append, sumDual_append]
    have hA : sumDual s2 self.dual_variable_global_progress self.nodes =
        sumDual s self.dual_variable_global_progress self.nodes := by
      apply sumDual_data_congr
      intro m hm
      obtain ⟨i, hi⟩ := List.mem_iff_getElem?.1 hm
      exact hoff m (fun htl => hdisjoint_sl m ⟨i, hi⟩ htl)
        (fun htr => hdisjoint_sr m ⟨i, hi⟩ htr)
    have hB : sumDual s2 self.dual_variable_global_progress left.nodes =
        sumDual s left.dual_variable_global_progress left.nodes := by
      apply sumDual_slotwise
      intro m hm
      obtain ⟨i, hi⟩ := List.mem_iff_getElem?.1 hm
      obtain ⟨nd, hd, _⟩ := hindexedL i m hi
      have hm' := hmutL i m hi nd hd
      simp only [slotDual, hm', hd]
      cases hgs : nd.grow_state <;> simp [DualNode.get_dual_variable, hgs]
    have hC : sumDual s2 self.dual_variable_global_progress right.nodes =
        sumDual s right.dual_variable_global_progress right.nodes := by
      apply sumDual_slotwise
      intro m hm
      obtain ⟨i, hi⟩ := List.mem_iff_getElem?.1 hm
      obtain ⟨nd, hd, _⟩ := hindexedR i m hi
      have hm' := hmutR i m hi nd hd
      simp only [slotDual, hm', hd]
      cases hgs : nd.grow_state <;> simp [DualNode.get_dual_variable, hgs]
    rw [hA, hB, hC, ← hsd, ← hsdL, ← hsdR]
  · show self2.sum_grow_speed = sumSpeed s2 self2.nodes
    rw [hss', hnodes', sumSpeed_append, sumSpeed_append]
    have hA : sumSpeed s2 self.nodes = sumSpeed s self.nodes := by
      apply sumSpeed_data_congr
      intro m hm
      obtain ⟨i, hi⟩ := List.mem_iff_getElem?.1 hm
      exact hoff m (fun htl => hdisjoint_sl m ⟨i, hi⟩ htl)
        (fun htr => hdisjoint_sr m ⟨i, hi⟩ htr)
    have hB : sumSpeed s2 left.nodes = sumSpeed s left.nodes := by
      apply sumSpeed_slotwise
      intro m hm
      obtain ⟨i, hi⟩ := List.mem_iff_getElem?.1 hm
      obtain ⟨nd, hd, _⟩ := hindexedL i m hi
      have hm' := hmutL i m hi nd hd
      simp only [slotSpeed, hm', hd]
    have hC : sumSpeed s2 right.nodes = sumSpeed s right.nodes := by
      apply sumSpeed_slotwise
      intro m hm
      obtain ⟨i, hi⟩ := List.mem_iff_getElem?.1 hm
      obtain ⟨nd, hd, _⟩ := hindexedR i m hi
      have hm' := hmutR i m hi nd hd
      simp only [slotSpeed, hm', hd]
    rw [hA, hB, hC, ← hss, ← hssL, ← hssR]

/-- Every public operation preserves the interface invariant. -/
theorem step_preserves_inv {s : Store} {self : DualModuleInterface}
    {s' : Store} {self' : DualModuleInterface}
    (hstep : Step s self s' self') (hinv : InterfaceInv s self) :
    InterfaceInv s' self' := by
  cases hstep with
  | create_syndrome v =>
    exact inv_create_syndrome s self v hinv
  | set_grow id gs t tself hbelong h =>
    exact inv_set_grow s self id gs s' self' hbelong h hinv
  | create_bloss nodes_circle touching_children t tself blossom_id hnodup hmem h =>
    exact inv_create_blossom s self nodes_circle touching_children s' self' blossom_id
      hnodup (circlePrecond_of_forall s self nodes_circle 0 (by simpa using hmem)) h hinv
  | expand_bloss blossom_id bnode circ touching t tself hnode hclass htracked
      hzero hparent h =>
    exact inv_expand_blossom s self blossom_id bnode circ touching s' self' hnode hclass
      htracked hzero hparent h hinv
  | grow_step length =>
    exact inv_grow s self length hinv
  | fuse_step left right t tself hleft hright hdis_lr hdis_sl hdis_sr h =>
    exact inv_fuse s self left right s' self' hleft hright hdis_lr hdis_sl hdis_sr h hinv

/-- The empty interface over the empty store satisfies the invariant. -/
theorem inv_init : InterfaceInv Store.empty DualModuleInterface.new_empty := by
  constructor
  · rfl
  · intro id node hd
    simp [Store.empty] at hd
  · intro i id hi
    simp [DualModuleInterface.new_empty] at hi
  · intro i b bnode circ touching hi hb hclass
    simp [DualModuleInterface.new_empty] at hi
  · rfl
  · rfl

/-- Every reachable state satisfies the interface invariant. -/
theorem reachable_inv {s : Store} {self : DualModuleInterface}
    (h : Reachable s self) : InterfaceInv s self := by
  induction h with
  | init => exact inv_init
  | step h hstep ih => exact step_preserves_inv hstep ih

theorem exFuse_indexed_left : indexedNodes exFuseStore exPairInterface := by
  intro j id hj
  by_cases h0 : j = 0
  · subst h0
    have hid : id = 0 := by
      simp [exPairInterface] at hj
      omega
    subst hid
    exact ⟨exampleNode 0 5 .Grow, rfl, rfl⟩
  by_cases h1 : j = 1
  · subst h1
    have hid : id = 1 := by
      simp [exPairInterface] at hj
      omega
    subst hid
    exact ⟨exampleNode 1 6 .Grow, rfl, rfl⟩
  · exfalso
    rw [List.getElem?_eq_none (by
      simp [exPairInterface]
      omega)] at hj
    cases hj

theorem exFuse_indexed_right : indexedNodes exFuseStore exRightInterface := by
  intro j id hj
  by_cases h0 : j = 0
  · subst h0
    have hid : id = 2 := by
      simp [exRightInterface] at hj
      omega
    subst hid
    exact ⟨exampleNode 0 7 .Grow, rfl, rfl⟩
  · exfalso
    rw [List.getElem?_eq_none (by
      simp [exRightInterface]
      omega)] at hj
    cases hj

theorem exFuse_disj :
    ∀ id : Nat, trackedIn exPairInterface id → trackedIn exRightInterface id → False := by
  intro id hl hr
  rw [trackedIn_iff_mem] at hl hr
  simp [exPairInterface] at hl
  simp [exRightInterface] at hr
  omega

/-- C7: after `fuse(left, right)`, `nodes_length` is the sum of the three
    lengths; every node formerly tracked at slot `i` of `left` (resp. `right`)
    is tracked at slot `old + i` (resp. `old + left.nodes_length + i`) with its
    `index` rebased by the `nodes_length` the absorbing interface had when that
    child was appended; its dual variable with respect to the fused interface
    equals its dual variable with respect to its original interface; and the two
    running totals accumulate the children's totals. -/
theorem C7_fuse_effects (s : Store) (self left right : DualModuleInterface)
    (hslen : self.nodes.length = self.nodes_length)
    (hllen : left.nodes.length = left.nodes_length)
    (hrlen : right.nodes.length = right.nodes_length)
    (hindexedL : indexedNodes s left)
    (hindexedR : indexedNodes s right)
    (hdisj : ∀ id : Nat, trackedIn left id → trackedIn right id → False) :
    ∃ (s' : Store) (self' : DualModuleInterface),
      fuse s self left right = .ok (s', self') ∧
      self'.nodes_length = self.nodes_length + left.nodes_length + right.nodes_length ∧
      (∀ (i : Nat) (id : Nat), left.nodes[i]? = some (some id) →
        self'.nodes[self.nodes_length + i]? = some (some id) ∧
        ∃ node node', s.data id = some node ∧ s'.data id = some node' ∧
          node'.index = node.index + self.nodes_length ∧
          node'.get_dual_variable self'.dual_variable_global_progress =
            node.get_dual_variable left.dual_variable_global_progress) ∧
      (∀ (i : Nat) (id : Nat), right.nodes[i]? = some (some id) →
        self'.nodes[self.nodes_length + left.nodes_length + i]? = some (some id) ∧
        ∃ node node', s.data id = some node ∧ s'.data id = some node' ∧
          node'.index = node.index + (self.nodes_length + left.nodes_length) ∧
          node'.get_dual_variable self'.dual_variable_global_progress =
            node.get_dual_variable right.dual_variable_global_progress) ∧
      self'.sum_dual_variables =
        self.sum_dual_variables + left.sum_dual_variables + right.sum_dual_variables ∧
      self'.sum_grow_speed =
        self.sum_grow_speed + left.sum_grow_speed + right.sum_grow_speed := by
  obtain ⟨s', self', hrun, hnodes, hlen, hsd, hss, hgp, hfr, hoff, hmutL, hmutR⟩ :=
    fuse_spec s self left right hslen hllen hrlen hindexedL hindexedR hdisj
  refine ⟨s', self', hrun, hlen, ?_, ?_, hsd, hss⟩
  · intro i id hi
    obtain ⟨hilt, _⟩ := List.getElem?_eq_some.1 hi
    obtain ⟨node, hnode, _⟩ := hindexedL i id hi
    have hmut' := hmutL i id hi node hnode
    constructor
    · rw [hnodes, List.getElem?_append_left (by
        simp
        omega : self.nodes_length + i < (self.nodes ++ left.nodes).length)]
      rw [List.getElem?_append_right (by omega : self.nodes.length ≤ self.nodes_length + i)]
      rw [show self.nodes_length + i - self.nodes.length = i from by omega]
      exact hi
    · refine ⟨node, _, hnode, hmut', rfl, ?_⟩
      rw [hgp]
      cases hgs : node.grow_state <;>
        simp [DualNode.get_dual_variable, hgs]
  · intro i id hi
    obtain ⟨hilt, _⟩ := List.getElem?_eq_some.1 hi
    obtain ⟨node, hnode, _⟩ := hindexedR i id hi
    have hmut' := hmutR i id hi node hnode
    constructor
    · rw [hnodes, List.getElem?_append_right (by
        simp
        omega : (self.nodes ++ left.nodes).length ≤ self.nodes_length + left.nodes_length + i)]
      rw [show self.nodes_length + left.nodes_length + i - (self.nodes ++ left.nodes).length = i
        from by simp; omega]
      exact hi
    · refine ⟨node, _, hnode, hmut', rfl, ?_⟩
      rw [hgp]
      cases hgs : node.grow_state <;>
        simp [DualNode.get_dual_variable, hgs]

/-- Witness: fusing the concrete pair-plus-singleton interfaces into an empty
    one exercises every conclusion of the fuse-effects theorem. -/
theorem C7_fuse_effects_witness :
    ∃ (s' : Store) (self' : DualModuleInterface),
      fuse exFuseStore DualModuleInterface.new_empty exPairInterface exRightInterface =
        .ok (s', self') ∧
      self'.nodes_length = DualModuleInterface.new_empty.nodes_length +
        exPairInterface.nodes_length + exRightInterface.nodes_length ∧
      (∀ (i : Nat) (id : Nat), exPairInterface.nodes[i]? = some (some id) →
        self'.nodes[DualModuleInterface.new_empty.nodes_length + i]? = some (some id) ∧
        ∃ node node', exFuseStore.data id = some node ∧ s'.data id = some node' ∧
          node'.index = node.index + DualModuleInterface.new_empty.nodes_length ∧
          node'.get_dual_variable self'.dual_variable_global_progress =
            node.get_dual_variable exPairInterface.dual_variable_global_progress) ∧
      (∀ (i : Nat) (id : Nat), exRightInterface.nodes[i]? = some (some id) →
        self'.nodes[DualModuleInterface.new_empty.nodes_length +
          exPairInterface.nodes_length + i]? = some (some id) ∧
        ∃ node node', exFuseStore.data id = some node ∧ s'.data id = some node' ∧
          node'.index = node.index + (DualModuleInterface.new_empty.nodes_length +
            exPairInterface.nodes_length) ∧
          node'.get_dual_variable self'.dual_variable_global_progress =
            node.get_dual_variable exRightInterface.dual_variable_global_progress) ∧
      self'.sum_dual_variables = DualModuleInterface.new_empty.sum_dual_variables +
        exPairInterface.sum_dual_variables + exRightInterface.sum_dual_variables ∧
      self'.sum_grow_speed = DualModuleInterface.new_empty.sum_grow_speed +
        exPairInterface.sum_grow_speed + exRightInterface.sum_grow_speed :=
  C7_fuse_effects exFuseStore DualModuleInterface.new_empty exPairInterface exRightInterface
    rfl rfl rfl exFuse_indexed_left exFuse_indexed_right exFuse_disj

/-- C5 (amended): the `DualNodePtr` ordering compares the nodes' `index` fields,
    which `fuse` rewrites, so the order is not stable in general (see the
    counterexample for a cross-interface flip); it IS stable for two nodes
    tracked by the same constituent interface, whose indices shift by the same
    bias. -/
theorem C5_order_stability_amended (s : Store) (self left right : DualModuleInterface)
    (hslen : self.nodes.length = self.nodes_length)
    (hllen : left.nodes.length = left.nodes_length)
    (hrlen : right.nodes.length = right.nodes_length)
    (hindexedL : indexedNodes s left)
    (hindexedR : indexedNodes s right)
    (hdisj : ∀ id : Nat, trackedIn left id → trackedIn right id → False)
    (a b : Nat)
    (hab : (trackedIn left a ∧ trackedIn left b) ∨
      (trackedIn right a ∧ trackedIn right b)) :
    ∃ (s' : Store) (self' : DualModuleInterface),
      fuse s self left right = .ok (s', self') ∧
      cmpDualNodePtr s' a b = cmpDualNodePtr s a b := by
  obtain ⟨s', self', hrun, hnodes, hlen, hsd, hss, hgp, hfr, hoff, hmutL, hmutR⟩ :=
    fuse_spec s self left right hslen hllen hrlen hindexedL hindexedR hdisj
  refine ⟨s', self', hrun, ?_⟩
  rcases hab with ⟨⟨i, hi⟩, ⟨j, hj⟩⟩ | ⟨⟨i, hi⟩, ⟨j, hj⟩⟩
  · obtain ⟨na, hna, _⟩ := hindexedL i a hi
    obtain ⟨nb, hnb, _⟩ := hindexedL j b hj
    have ha' := hmutL i a hi na hna
    have hb' := hmutL j b hj nb hnb
    simp only [cmpDualNodePtr, ha', hb', hna, hnb]
    rw [Nat.add_comm na.index self.nodes_length, Nat.add_comm nb.index self.nodes_length]
    exact compare_add_bias self.nodes_length na.index nb.index
  · obtain ⟨na, hna, _⟩ := hindexedR i a hi
    obtain ⟨nb, hnb, _⟩ := hindexedR j b hj
    have ha' := hmutR i a hi na hna
    have hb' := hmutR j b hj nb hnb
    simp only [cmpDualNodePtr, ha', hb', hna, hnb]
    rw [Nat.add_comm na.index _, Nat.add_comm nb.index _]
    exact compare_add_bias (self.nodes_length + left.nodes_length) na.index nb.index

/-- Witness: the two nodes of the left interface keep their relative order. -/
theorem C5_order_stability_amended_witness :
    ∃ (s' : Store) (self' : DualModuleInterface),
      fuse exFuseStore DualModuleInterface.new_empty exPairInterface exRightInterface =
        .ok (s', self') ∧
      cmpDualNodePtr s' 0 1 = cmpDualNodePtr exFuseStore 0 1 :=
  C5_order_stability_amended exFuseStore DualModuleInterface.new_empty exPairInterface
    exRightInterface rfl rfl rfl exFuse_indexed_left exFuse_indexed_right exFuse_disj 0 1
    (Or.inl ⟨⟨0, rfl⟩, ⟨1, rfl⟩⟩)

/-- For a circle of non-Stay members, the member count minus the speed sum is
    twice the number of shrinking members. -/
theorem length_sub_speedSum (s : Store) :
    ∀ circle : List Nat, (∀ m ∈ circle, ∃ node, s.data m = some node ∧
      node.grow_state ≠ DualNodeGrowState.Stay) →
    (circle.length : Weight) - circleSpeedSum s circle =
      2 * (shrinkCount s circle : Weight) := by
  intro circle
  induction circle with
  | nil => simp [circleSpeedSum, shrinkCount]
  | cons id rest ih =>
    intro h
    obtain ⟨node, hd, hne⟩ := h id (by simp)
    have hr := ih (fun m hm => h m (by simp [hm]))
    rw [circleSpeedSum_cons s id rest node hd]
    cases hgs : node.grow_state with
    | Grow =>
      have hsc : shrinkCount s (id :: rest) = shrinkCount s rest := by
        simp [shrinkCount, List.countP_cons, hd, hgs]
      rw [hsc]
      simp only [List.length_cons, growSpeed]
      push_cast
      push_cast at hr
      linarith
    | Stay => exact absurd hgs hne
    | Shrink =>
      have hsc : shrinkCount s (id :: rest) = shrinkCount s rest + 1 := by
        simp [shrinkCount, List.countP_cons, hd, hgs]
      rw [hsc]
      simp only [List.length_cons, growSpeed]
      push_cast
      push_cast at hr
      linarith

/-- C1 (amended): creating a blossom from a valid alternating circle and
    immediately expanding it succeeds, leaves every circle member with
    grow_state Grow and no parent, leaves the blossom's arena slot empty
    (untracked), and increases `sum_grow_speed` by exactly twice the number of
    members that were shrinking — it returns to its prior value only when no
    member was shrinking. -/
theorem C1_round_trip_amended (s : Store) (self : DualModuleInterface)
    (nodes_circle : List Nat)
    (hlen_eq : self.nodes.length = self.nodes_length)
    (hpre : circlePrecond s self 0 nodes_circle)
    (hnodup : nodes_circle.Nodup)
    (hindexed : indexedNodes s self)
    (hfreshb : ∀ id node, s.data id = some node → id < s.fresh) :
    ∃ (s1 : Store) (self1 : DualModuleInterface) (s2 : Store) (self2 : DualModuleInterface),
      create_blossom s self nodes_circle [] = .ok (s1, self1, s.fresh) ∧
      expand_blossom s1 self1 s.fresh = .ok (s2, self2) ∧
      (∀ m ∈ nodes_circle, ∃ node, s2.data m = some node ∧
        node.grow_state = DualNodeGrowState.Grow ∧ node.parent_blossom = none) ∧
      self2.nodes[self.nodes_length]? = some none ∧
      self2.sum_grow_speed =
        self.sum_grow_speed + 2 * (shrinkCount s nodes_circle : Weight) := by
  have hmem_facts := circlePrecond_mem s self nodes_circle 0 hpre
  have hmem_ne_fresh : ∀ m ∈ nodes_circle, m ≠ s.fresh := by
    intro m hm he
    obtain ⟨node, hdm, _, _, _⟩ := hmem_facts m hm
    have := hfreshb m node hdm
    omega
  obtain ⟨s1, self1, hcreate, hfresh1, hbdata, hoff1, hmem1, hnodes1, hlen1, hsd1, hgp1,
    hspeed1, hsumDc, hsumSc⟩ := create_blossom_spec s self nodes_circle [] hlen_eq hpre hnodup
      hindexed hfreshb (Or.inl rfl)
  set blossom : DualNode :=
    { index := self.nodes_length
      node_class := DualNodeClass.Blossom nodes_circle
        (if ([] : List (Nat × Nat)).length = 0 then nodes_circle.map (fun c => (c, c))
         else [])
      grow_state := DualNodeGrowState.Grow
      parent_blossom := none
      dual_variable_cache := (0, self.dual_variable_global_progress) } with hblossom
  have hbdata' : s1.data s.fresh = some blossom := hbdata
  have htracked1 : self1.nodes[blossom.index]? = some (some s.fresh) := by
    show self1.nodes[self.nodes_length]? = some (some s.fresh)
    rw [hnodes1, ← hlen_eq]
    exact List.getElem?_concat_length _ _
  have hmemfull : ∀ m ∈ nodes_circle, ∃ node, s1.data m = some node ∧
      node.parent_blossom = some s.fresh ∧
      node.grow_state = DualNodeGrowState.Stay ∧
      self1.nodes[node.index]? = some (some m) := by
    intro m hm
    obtain ⟨nd, hd, hd1⟩ := hmem1 m hm
    obtain ⟨nd0, hd0, hbelong, hpar0, _⟩ := hmem_facts m hm
    rw [hd] at hd0
    cases hd0
    obtain ⟨hlt, hslot⟩ := check_ptr_belonging_spec s self m nd hd hbelong
    refine ⟨_, hd1, rfl, rfl, ?_⟩
    show self1.nodes[nd.index]? = some (some m)
    rw [hnodes1]
    rw [List.getElem?_append_left (by omega : nd.index < self.nodes.length)]
    exact hslot
  have hindexed1 : indexedNodes s1 self1 := by
    intro j id hj
    rw [hnodes1] at hj
    by_cases hjlt : j < self.nodes.length
    · rw [List.getElem?_append_left hjlt] at hj
      obtain ⟨nd0, hd0, hi0⟩ := hindexed j id hj
      by_cases hmemb : id ∈ nodes_circle
      · obtain ⟨nd, hd, hd1⟩ := hmem1 id hmemb
        rw [hd] at hd0
        cases hd0
        exact ⟨_, hd1, hi0⟩
      · have hne : id ≠ s.fresh := by
          intro he
          have := hfreshb id nd0 hd0
          omega
        exact ⟨nd0, by rw [hoff1 id hmemb hne, hd0], hi0⟩
    · have hj_eq : j = self.nodes.length := by
        by_contra hne
        have : self.nodes.length + 1 ≤ j := by omega
        rw [List.getElem?_eq_none (by simp; omega)] at hj
        cases hj
      subst hj_eq
      rw [List.getElem?_concat_length] at hj
      have hid : id = s.fresh := by
        injection hj with h1
        injection h1 with h2
        exact h2.symm
      subst hid
      exact ⟨blossom, hbdata', by rw [hblossom]; simp [hlen_eq]⟩
  have hb_not_mem : s.fresh ∉ nodes_circle := fun h => hmem_ne_fresh s.fresh h rfl
  obtain ⟨s2, self2, hexpand, hnodes2, hlen2, hsd2, hgp2, hspeed2, hfresh2, hoff2, hmem2,
    hsumD2, hsumS2⟩ := expand_blossom_spec s1 self1 s.fresh blossom nodes_circle
      (if ([] : List (Nat × Nat)).length = 0 then nodes_circle.map (fun c => (c, c)) else [])
      hbdata' rfl htracked1 hmemfull hnodup hindexed1 hb_not_mem
  refine ⟨s1, self1, s2, self2, hcreate, hexpand, ?_, ?_, ?_⟩
  · intro m hm
    obtain ⟨node, hd, hd'⟩ := hmem2 m hm
    exact ⟨_, hd', rfl, rfl⟩
  · rw [hnodes2]
    show (self1.nodes.set self.nodes_length none)[self.nodes_length]? = some none
    rw [List.getElem?_set_eq]
    rw [hnodes1]
    simp [← hlen_eq]
  · rw [hspeed2, hspeed1]
    have hlen_speed := length_sub_speedSum s nodes_circle
      (fun m hm => by
        obtain ⟨node, hd, _, _, hne⟩ := hmem_facts m hm
        exact ⟨node, hd, hne⟩)
    have hbgrow : growSpeed blossom.grow_state = 1 := by rw [hblossom]; rfl
    rw [hbgrow]
    linarith

/-- C8 (amended): `create_blossom` with an empty `touching_children` list
    fills in `(c, c)` for every circle member and is permitted whenever the
    generic circle preconditions hold (members belong to the interface, have no
    parent, and alternate Grow/Shrink) — the member class is never checked, so
    a circle containing a blossom member succeeds as well. -/
theorem C8_default_touching_amended (s : Store) (self : DualModuleInterface)
    (nodes_circle : List Nat)
    (hlen_eq : self.nodes.length = self.nodes_length)
    (hpre : circlePrecond s self 0 nodes_circle)
    (hnodup : nodes_circle.Nodup)
    (hindexed : indexedNodes s self)
    (hfreshb : ∀ id node, s.data id = some node → id < s.fresh) :
    ∃ (s1 : Store) (self1 : DualModuleInterface),
      create_blossom s self nodes_circle [] = .ok (s1, self1, s.fresh) ∧
      s1.data s.fresh = some
        { index := self.nodes_length
          node_class := DualNodeClass.Blossom nodes_circle
            (nodes_circle.map (fun c => (c, c)))
          grow_state := DualNodeGrowState.Grow
          parent_blossom := none
          dual_variable_cache := (0, self.dual_variable_global_progress) } := by
  obtain ⟨s1, self1, hcreate, _, hbdata, _⟩ := create_blossom_spec s self nodes_circle []
    hlen_eq hpre hnodup hindexed hfreshb (Or.inl rfl)
  exact ⟨s1, self1, hcreate, by simpa using hbdata⟩

/-- C1 (counterexample): the create/expand round trip does not restore
    `sum_grow_speed`: starting from the Grow/Shrink pair with total 0, the trip
    succeeds and leaves the total at 2 (each member comes back growing). -/
theorem C1_counterexample :
    round_trip_speed exPairStore exPairInterface [0, 1] = some 2 ∧
    exPairInterface.sum_grow_speed = 0 := by
  exact ⟨by decide, by decide⟩

/-- Witness for the amended round-trip theorem, at the Grow/Shrink pair. -/
theorem C1_round_trip_amended_witness :
    ∃ (s1 : Store) (self1 : DualModuleInterface) (s2 : Store) (self2 : DualModuleInterface),
      create_blossom exPairStore exPairInterface [0, 1] [] =
        .ok (s1, self1, exPairStore.fresh) ∧
      expand_blossom s1 self1 exPairStore.fresh = .ok (s2, self2) ∧
      (∀ m ∈ [0, 1], ∃ node, s2.data m = some node ∧
        node.grow_state = DualNodeGrowState.Grow ∧ node.parent_blossom = none) ∧
      self2.nodes[exPairInterface.nodes_length]? = some none ∧
      self2.sum_grow_speed =
        exPairInterface.sum_grow_speed + 2 * (shrinkCount exPairStore [0, 1] : Weight) :=
  C1_round_trip_amended exPairStore exPairInterface [0, 1] rfl
    ⟨⟨exampleNode 0 0 .Grow, rfl, by decide, rfl, by decide⟩,
     ⟨exampleNode 1 1 .Shrink, rfl, by decide, rfl, by decide⟩, trivial⟩
    (by decide)
    (by
      intro j id hj
      by_cases h0 : j = 0
      · subst h0
        have hid : id = 0 := by
          simp [exPairInterface] at hj
          omega
        subst hid
        exact ⟨exampleNode 0 0 .Grow, rfl, rfl⟩
      by_cases h1 : j = 1
      · subst h1
        have hid : id = 1 := by
          simp [exPairInterface] at hj
          omega
        subst hid
        exact ⟨exampleNode 1 1 .Shrink, rfl, rfl⟩
      · exfalso
        rw [List.getElem?_eq_none (by
          simp [exPairInterface]
          omega)] at hj
        cases hj)
    (by
      intro id node hd
      by_contra hcon
      push_neg at hcon
      have h2 : (2 : Nat) ≤ id := hcon
      have hnone : exPairStore.data id = none := List.getElem?_eq_none (by simpa using h2)
      rw [hnone] at hd
      cases hd)

/-- Witness for the amended default-touching theorem: the circle contains a
    blossom-class member and `create_blossom` still succeeds, with the `(c, c)`
    default touching pairs. -/
theorem C8_default_touching_amended_witness :
    ∃ (s1 : Store) (self1 : DualModuleInterface),
      create_blossom exMixedStore exPairInterface [0, 1] [] =
        .ok (s1, self1, exMixedStore.fresh) ∧
      s1.data exMixedStore.fresh = some
        { index := exPairInterface.nodes_length
          node_class := DualNodeClass.Blossom [0, 1] ([0, 1].map (fun c => (c, c)))
          grow_state := DualNodeGrowState.Grow
          parent_blossom := none
          dual_variable_cache := (0, exPairInterface.dual_variable_global_progress) } :=
  C8_default_touching_amended exMixedStore exPairInterface [0, 1] rfl
    ⟨⟨exampleNode 0 0 .Grow, rfl, by decide, rfl, by decide⟩,
     ⟨exBlossomMember, rfl, by decide, rfl, by decide⟩, trivial⟩
    (by decide)
    (by
      intro j id hj
      by_cases h0 : j = 0
      · subst h0
        have hid : id = 0 := by
          simp [exPairInterface] at hj
          omega
        subst hid
        exact ⟨exampleNode 0 0 .Grow, rfl, rfl⟩
      by_cases h1 : j = 1
      · subst h1
        have hid : id = 1 := by
          simp [exPairInterface] at hj
          omega
        subst hid
        exact ⟨exBlossomMember, rfl, rfl⟩
      · exfalso
        rw [List.getElem?_eq_none (by
          simp [exPairInterface]
          omega)] at hj
        cases hj)
    (by
      intro id node hd
      by_contra hcon
      push_neg at hcon
      have h2 : (2 : Nat) ≤ id := hcon
      have hnone : exMixedStore.data id = none := List.getElem?_eq_none (by simpa using h2)
      rw [hnone] at hd
      cases hd)

/-- C3: for every interface state reachable from the empty one by the public
    operations with their documented preconditions (create_syndrome_node,
    create_blossom, expand_blossom of a zero-dual blossom, set_grow_state,
    grow, fuse of disjoint invariant interfaces), `sum_dual_variables` equals
    the sum of `get_dual_variable` over all tracked nodes — the dual-variable
    check of `sanity_check` passes after every operation. -/
theorem C3_sum_dual_invariant (s : Store) (self : DualModuleInterface)
    (h : Reachable s self) :
    self.sum_dual_variables =
      sumDual s self.dual_variable_global_progress self.nodes :=
  InterfaceInv.sum_dual_ok (reachable_inv h)

/-- Witness: the state after one `create_syndrome_node` from the empty
    interface satisfies the dual-variable sum equation. -/
theorem C3_sum_dual_invariant_witness :
    c3wRes.2.1.sum_dual_variables =
      sumDual c3wRes.1 c3wRes.2.1.dual_variable_global_progress c3wRes.2.1.nodes :=
  C3_sum_dual_invariant c3wRes.1 c3wRes.2.1
    (Reachable.step Reachable.init
      (Step.create_syndrome Store.empty DualModuleInterface.new_empty 7))

end FusionBlossom
